import Mathlib

/-
Verification of the RBAC policy-document engine of baton-argo-cd.

The development shallowly embeds the policy-document pipeline of the
repository:

* a model of Go `encoding/csv` reading as configured everywhere in the
  repository (`Comment = '#'`, `TrimLeadingSpace = true`,
  `FieldsPerRecord = -1`, `LazyQuotes = false`, `Comma = ','`) and of
  Go `encoding/csv` writing as configured in `updateRBACPolicy`
  (`Comma = ','`, `UseCRLF = false`);
* `ParseArgoCDPolicyCSV`, `GetPolicyGrants`, `GetSubjectsForRole`
  (pkg/client/helper.go, pkg/client/client.go);
* `UpdateUserRole`, `RemoveUserRole`, `GetUserRoles`
  (the client revision that delegates to `updateRBACPolicy` and the
  kubectl/grep pipeline);
* `handleExplicitGrants`, `handleDefaultRoleGrants`
  (pkg/connector/helper.go) and their composition from
  `roleBuilder.Grants`.

Strings are modelled as `List Char`.  Go maps are modelled as
first-insertion-ordered key lists; map iteration order in Go is
unspecified, and every property proved below is insensitive to that
order (membership, duplicate-freeness).
-/

/-- Convert a string literal to the character-list representation used
throughout the development. -/
def s2l (s : String) : List Char := s.data

/-- Character class of Go `unicode.IsSpace`: the ASCII whitespace
characters together with the Unicode white-space code points below
U+FFFF that `unicode.IsSpace` accepts. -/
def isGoSpace (c : Char) : Bool :=
  c = ' ' || c = '\t' || c = '\n' || c = '\x0b' || c = '\x0c' || c = '\r' ||
  c = '\u0085' || c = '\u00A0' || c = '\u1680' ||
  ('\u2000' ≤ c && c ≤ '\u200A') ||
  c = '\u2028' || c = '\u2029' || c = '\u202F' || c = '\u205F' || c = '\u3000'

/-- Go `strings.TrimSpace`: drop `unicode.IsSpace` characters from both
ends. -/
def goTrimSpace (s : List Char) : List Char :=
  ((s.dropWhile isGoSpace).reverse.dropWhile isGoSpace).reverse

/-- Go `strings.TrimPrefix p` : remove one leading occurrence of `p`
when present, otherwise return the input unchanged. -/
def goTrimPfx (p s : List Char) : List Char :=
  if p.isPrefixOf s then s.drop p.length else s

/-- The `RolePrefix` constant `"role:"` of pkg/client/helper.go. -/
def rolePfx : List Char := s2l "role:"

/-- The `PolicyTypeGrant` / `userGrantPrefix` constant `"g"`. -/
def gTok : List Char := s2l "g"

/-- The `PolicyTypeDefinition` constant `"p"`. -/
def pTok : List Char := s2l "p"

/-- Prefix normalisation of `UpdateUserRole`: prepend `"role:"` unless
the caller-supplied role already starts with it. -/
def withRolePfx (r : List Char) : List Char :=
  if rolePfx.isPrefixOf r then r else rolePfx ++ r

/-- Newline normalisation performed by `csv.Reader.readLine`: every
`\r\n` pair collapses to `\n`.  Applying it once to the whole input is
equivalent to Go's per-line normalisation because only a `\r`
immediately preceding a `\n` is affected. -/
def normNL : List Char → List Char
  | [] => []
  | [c] => [c]
  | c :: c2 :: t =>
    if c = '\r' ∧ c2 = '\n' then '\n' :: normNL t else c :: normNL (c2 :: t)

/-- The `csv.Reader.readLine` backwards-compatibility rule: a `\r`
terminating the input (a final line without `\n`) is dropped. -/
def dropTrailCR (s : List Char) : List Char :=
  if s.getLast? = some '\r' then s.dropLast else s

/-- Decidable equality for `Except`, so that concrete runs of the
evaluator can be checked by `decide`. -/
instance {ε α : Type} [DecidableEq ε] [DecidableEq α] :
    DecidableEq (Except ε α) := fun x y =>
  match x, y with
  | .ok a, .ok b =>
    match decEq a b with
    | isTrue h => isTrue (h ▸ rfl)
    | isFalse h => isFalse (fun hh => h (Except.ok.inj hh))
  | .error a, .error b =>
    match decEq a b with
    | isTrue h => isTrue (h ▸ rfl)
    | isFalse h => isFalse (fun hh => h (Except.error.inj hh))
  | .ok _, .error _ => isFalse (fun hh => Except.noConfusion hh)
  | .error _, .ok _ => isFalse (fun hh => Except.noConfusion hh)

/-- Errors of the modelled `csv.Reader` (`LazyQuotes = false`):
`bareQuote` is `ErrBareQuote` (a `"` inside a non-quoted field),
`quote` is `ErrQuote` (a malformed or unterminated quoted field). -/
inductive CsvErr
  | bareQuote
  | quote
  deriving DecidableEq, Repr

/-- States of the character-level model of `csv.Reader.readRecord` with
`Comment = '#'`, `TrimLeadingSpace = true`, `FieldsPerRecord = -1`:
`lineStart` looks for the next record (skipping comment and empty
lines), `skipLine` consumes the remainder of a comment line,
`fieldStart` trims leading white space before a field of the current
record, `inUnquoted` and `inQuoted` accumulate a field. -/
inductive CsvSt
  | lineStart
  | skipLine
  | fieldStart (rec : List (List Char))
  | inUnquoted (rec : List (List Char)) (acc : List Char)
  | inQuoted (rec : List (List Char)) (acc : List Char)

/-- Character-level model of `csv.Reader.ReadAll` on input whose `\r\n`
pairs have already been normalised (see `csvReadAll`).  Transitions
mirror `readRecord`/`parseField` of Go `encoding/csv`: comment lines are
identified by a `#` as the very first character of a line; empty lines
are skipped; `TrimLeadingSpace` consumes `unicode.IsSpace` characters
(including, on an all-blank line, the terminating newline, yielding the
record `[""]`); an unquoted field containing a `"` is `ErrBareQuote`; a
quoted field ends at an unescaped `"` which must be followed by a
separator, a newline or the end of input, anything else being
`ErrQuote`, as is an unterminated quoted field. -/
def csvRun : CsvSt → List Char → Except CsvErr (List (List (List Char)))
  | .lineStart, [] => .ok []
  | .lineStart, c :: t =>
    if c = '#' then csvRun .skipLine t
    else if c = '\n' then csvRun .lineStart t
    else if c = ',' then csvRun (.fieldStart [[]]) t
    else if c = '"' then csvRun (.inQuoted [] []) t
    else if isGoSpace c then csvRun (.fieldStart []) t
    else csvRun (.inUnquoted [] [c]) t
  | .skipLine, [] => .ok []
  | .skipLine, c :: t =>
    if c = '\n' then csvRun .lineStart t else csvRun .skipLine t
  | .fieldStart rec, [] => .ok [rec ++ [[]]]
  | .fieldStart rec, c :: t =>
    if c = '\n' then (csvRun .lineStart t).map (fun l => (rec ++ [[]]) :: l)
    else if c = ',' then csvRun (.fieldStart (rec ++ [[]])) t
    else if c = '"' then csvRun (.inQuoted rec []) t
    else if isGoSpace c then csvRun (.fieldStart rec) t
    else csvRun (.inUnquoted rec [c]) t
  | .inUnquoted rec acc, [] =>
    if acc.contains '"' then .error .bareQuote else .ok [rec ++ [acc]]
  | .inUnquoted rec acc, c :: t =>
    if c = '\n' then
      if acc.contains '"' then .error .bareQuote
      else (csvRun .lineStart t).map (fun l => (rec ++ [acc]) :: l)
    else if c = ',' then
      if acc.contains '"' then .error .bareQuote
      else csvRun (.fieldStart (rec ++ [acc])) t
    else csvRun (.inUnquoted rec (acc ++ [c])) t
  | .inQuoted _ _, [] => .error .quote
  | .inQuoted rec acc, c :: t =>
    if c = '"' then
      match t with
      | [] => .ok [rec ++ [acc]]
      | c2 :: t2 =>
        if c2 = '"' then csvRun (.inQuoted rec (acc ++ ['"'])) t2
        else if c2 = ',' then csvRun (.fieldStart (rec ++ [acc])) t2
        else if c2 = '\n' then
          (csvRun .lineStart t2).map (fun l => (rec ++ [acc]) :: l)
        else .error .quote
    else csvRun (.inQuoted rec (acc ++ [c])) t

/-- Model of `csv.Reader.ReadAll` as configured by every reader in the
repository: normalise `\r\n`, drop a `\r` terminating the input, then
run the record parser. -/
def csvReadAll (s : List Char) : Except CsvErr (List (List (List Char))) :=
  csvRun .lineStart (dropTrailCR (normNL s))

/-- Escaping inside a quoted written field: `"` is doubled
(`csv.Writer` with `UseCRLF = false` writes `\r` and `\n` verbatim). -/
def escQ : List Char → List Char
  | [] => []
  | c :: t => if c = '"' then '"' :: '"' :: escQ t else c :: escQ t

/-- Go `csv.Writer.fieldNeedsQuotes` for `Comma = ','`: the empty field
is unquoted; `\.` is quoted; a field containing a comma, quote, `\r` or
`\n` is quoted; a field whose first character is white space is
quoted. -/
def fieldNeedsQuotes (f : List Char) : Bool :=
  match f with
  | [] => false
  | c :: t =>
    (c = '\\' && t = ['.']) ||
    (c :: t).any (fun x => x = ',' || x = '"' || x = '\r' || x = '\n') ||
    isGoSpace c

/-- One written field of `csv.Writer.Write`. -/
def encodeField (f : List Char) : List Char :=
  if fieldNeedsQuotes f then '"' :: escQ f ++ ['"'] else f

/-- The body of one written record: fields joined by commas. -/
def writeFields : List (List Char) → List Char
  | [] => []
  | [f] => encodeField f
  | f :: fs => encodeField f ++ ',' :: writeFields fs

/-- One written record line, terminated by `\n` (`UseCRLF = false`). -/
def writeRecord (r : List (List Char)) : List Char :=
  writeFields r ++ ['\n']

/-- Model of `csv.Writer.WriteAll` as used by `updateRBACPolicy`. -/
def csvWriteAll (rs : List (List (List Char))) : List Char :=
  (rs.map writeRecord).flatten

example : csvReadAll (s2l "g,alice,role:admin\n") =
    .ok [[s2l "g", s2l "alice", s2l "role:admin"]] := by decide

example : csvReadAll (s2l "# comment\n\ng, alice, role:admin") =
    .ok [[s2l "g", s2l "alice", s2l "role:admin"]] := by decide

example : csvReadAll (s2l "a,\"b\"\"c\",\"x\ny\"\n") =
    .ok [[s2l "a", s2l "b\"c", s2l "x\ny"]] := by decide

example : csvReadAll (s2l "a\"b\n") = .error .bareQuote := by decide

example : csvReadAll (s2l "\"ab\ncd") = .error .quote := by decide

example : csvReadAll (s2l "  \n") = .ok [[[]]] := by decide

example : csvWriteAll [[s2l "g", s2l "a b", s2l " x"], [s2l "q\"r"]] =
    s2l "g,a b,\" x\"\n\"q\"\"r\"\n" := by decide

example : csvReadAll (s2l "a\r\nb\r") = .ok [[s2l "a"], [s2l "b"]] := by
  decide

/-- A `g` row parsed by `ParseArgoCDPolicyCSV`
(`PolicyBinding` of pkg/client/models.go). -/
structure PolicyBinding where
  subject : List Char
  role : List Char
  deriving DecidableEq, Repr

/-- A `p` row parsed by `ParseArgoCDPolicyCSV`
(`PolicyDefinition` of pkg/client/models.go). -/
structure PolicyDefinition where
  role : List Char
  resource : List Char
  action : List Char
  deriving DecidableEq, Repr

/-- A filtered grant returned by `GetPolicyGrants`
(`PolicyGrant` of pkg/client/models.go). -/
structure PolicyGrant where
  subject : List Char
  role : List Char
  deriving DecidableEq, Repr

/-- The loop body of `ParseArgoCDPolicyCSV` (pkg/client/helper.go
lines 72-103): skip empty records, trim every field, then a `g` row
with at least 3 fields yields a binding with the `role:` prefix
stripped, a `p` row with at least 4 fields yields a definition, and
every other row is skipped. -/
def collectPolicies :
    List (List (List Char)) → List PolicyBinding × List PolicyDefinition
  | [] => ([], [])
  | rec :: rest =>
    let p := collectPolicies rest
    if rec.length = 0 then p
    else
      match rec.map goTrimSpace with
      | [] => p
      | f0 :: tl =>
        if f0 = gTok then
          match tl with
          | f1 :: f2 :: _ =>
            (⟨f1, goTrimPfx rolePfx f2⟩ :: p.1, p.2)
          | _ => p
        else if f0 = pTok then
          match tl with
          | f1 :: f2 :: f3 :: _ =>
            (p.1, ⟨goTrimPfx rolePfx f1, f2, f3⟩ :: p.2)
          | _ => p
        else p

/-- `ParseArgoCDPolicyCSV` (pkg/client/helper.go lines 58-106): read
all CSV records, then collect bindings and definitions; the only error
source is `csv.Reader.ReadAll`. -/
def parseArgoCDPolicyCSV (csv : List Char) :
    Except CsvErr (List PolicyBinding × List PolicyDefinition) :=
  match csvReadAll csv with
  | .error e => .error e
  | .ok records => .ok (collectPolicies records)

/-- `GetPolicyGrants` (pkg/client/client.go lines 74-102): an absent or
blank `policy.csv` yields no grants; otherwise bindings with an empty
subject or role are filtered out. -/
def getPolicyGrants (policyCsv : List Char) :
    Except CsvErr (List PolicyGrant) :=
  if (goTrimSpace policyCsv).isEmpty then .ok []
  else
    match parseArgoCDPolicyCSV policyCsv with
    | .error e => .error e
    | .ok (bs, _) =>
      .ok ((bs.filter (fun b => !b.subject.isEmpty && !b.role.isEmpty)).map
        (fun b => ⟨b.subject, b.role⟩))

/-- First-insertion-ordered key list: the model of a Go
`map[string]...` key set.  Go's iteration order is unspecified; all
properties proved below depend only on membership and
duplicate-freeness. -/
def dedupFirst : List (List Char) → List (List Char)
  | [] => []
  | a :: t => a :: (dedupFirst t).filter (fun b => b ≠ a)

/-- `GetSubjectsForRole` (pkg/client/client.go lines 123-153): subjects
of the bindings whose (prefix-stripped) role equals `roleName`,
de-duplicated through `subjectMap`. -/
def getSubjectsForRole (policyCsv roleName : List Char) :
    Except CsvErr (List (List Char)) :=
  if (goTrimSpace policyCsv).isEmpty then .ok []
  else
    match parseArgoCDPolicyCSV policyCsv with
    | .error e => .error e
    | .ok (bs, _) =>
      .ok (dedupFirst ((bs.filter (fun b => b.role = roleName)).map
        (fun b => b.subject)))

/-- `handleExplicitGrants` (pkg/connector/helper.go lines 118-136):
one grant per subject of the role that is a known local account; a
grant is modelled by the principal's account name. -/
def handleExplicitGrants (subjects accountsKeys : List (List Char)) :
    List (List Char) :=
  subjects.filter (fun s => accountsKeys.contains s)

/-- `handleDefaultRoleGrants` (pkg/connector/helper.go lines 139-164):
collect the local accounts holding any policy grant, then grant the
default role to every remaining local account. -/
def handleDefaultRoleGrants (accountsKeys : List (List Char))
    (policyGrants : List PolicyGrant) : List (List Char) :=
  let explicitUsers :=
    dedupFirst ((policyGrants.filter
      (fun pg => accountsKeys.contains pg.subject)).map (fun pg => pg.subject))
  accountsKeys.filter (fun a => !explicitUsers.contains a)

/-- `roleBuilder.Grants` for the configured default role
(pkg/connector/roles.go lines 72-104): the explicit grants of the role
followed by the default-role grants, with the account list keyed by
name as in `prepareAccountLookup`. -/
def grantsForDefaultRole (policyCsv : List Char)
    (accounts : List (List Char)) (roleName : List Char) :
    Except CsvErr (List (List Char)) :=
  match getSubjectsForRole policyCsv roleName with
  | .error e => .error e
  | .ok subs =>
    match getPolicyGrants policyCsv with
    | .error e => .error e
    | .ok pgs =>
      let keys := dedupFirst accounts
      .ok (handleExplicitGrants subs keys ++ handleDefaultRoleGrants keys pgs)

/-- The existing-binding test of `UpdateUserRole` (the client revision
at src/unnamed/part_007 lines 143-149): a record with more than two
fields whose first three fields are exactly `g`, the user, and the
prefix-normalised role. -/
def matchGrantRec (u pr : List Char) (rec : List (List Char)) : Bool :=
  match rec with
  | f0 :: f1 :: f2 :: _ => f0 == gTok && f1 == u && f2 == pr
  | _ => false

/-- Outcomes of `UpdateUserRole`: `applied` is the `nil` annotation
(write-back performed), `alreadyExists` is the `GrantAlreadyExists`
annotation (no write-back). -/
inductive UpdateOutcome
  | applied
  | alreadyExists
  deriving DecidableEq, Repr

/-- `UpdateUserRole` (src/unnamed/part_007 lines 117-162 together with
`updateRBACPolicy` of pkg/client/helper.go lines 295-330): parse the
stored `policy.csv`; if some record already carries the exact
`(g, user, prefixed-role)` triple, report `GrantAlreadyExists` and
leave the stored document untouched; otherwise append the new row and
write all records back through `csv.Writer.WriteAll`.  The returned
text is the content of the `policy.csv` key after the call. -/
def updateUserRole (policyCsv u r : List Char) :
    Except CsvErr (UpdateOutcome × List Char) :=
  match csvReadAll policyCsv with
  | .error e => .error e
  | .ok records =>
    let pr := withRolePfx r
    if records.any (matchGrantRec u pr) then .ok (.alreadyExists, policyCsv)
    else .ok (.applied, csvWriteAll (records ++ [[gTok, u, pr]]))

/-- The removal test of `RemoveUserRole` (src/unnamed/part_007 lines
192-201): a record with more than two fields whose first field is `g`,
whose second field is the user, and whose third field equals the role
after stripping a `role:` prefix. -/
def matchRemoveRec (u r : List Char) (rec : List (List Char)) : Bool :=
  match rec with
  | f0 :: f1 :: f2 :: _ => f0 == gTok && f1 == u && goTrimPfx rolePfx f2 == r
  | _ => false

/-- Outcomes of `RemoveUserRole`: `applied` is the `nil` annotation
(write-back performed), `alreadyRevoked` is the `GrantAlreadyRevoked`
annotation (no write-back). -/
inductive RemoveOutcome
  | applied
  | alreadyRevoked
  deriving DecidableEq, Repr

/-- The record loop of `RemoveUserRole`: keep every non-matching record
in order, remember whether anything matched. -/
def removeLoop (u r : List Char) :
    List (List (List Char)) → List (List (List Char)) × Bool
  | [] => ([], false)
  | rec :: rest =>
    let p := removeLoop u r rest
    if matchRemoveRec u r rec then (p.1, true) else (rec :: p.1, p.2)

/-- `RemoveUserRole` (src/unnamed/part_007 lines 168-212): parse the
stored `policy.csv`, drop every matching record, report
`GrantAlreadyRevoked` when nothing matched (leaving the document
untouched), otherwise write the remaining records back.  The function
never consults the configured default role. -/
def removeUserRole (policyCsv u r : List Char) :
    Except CsvErr (RemoveOutcome × List Char) :=
  match csvReadAll policyCsv with
  | .error e => .error e
  | .ok records =>
    let p := removeLoop u r records
    if p.2 then .ok (.applied, csvWriteAll p.1)
    else .ok (.alreadyRevoked, policyCsv)

/-- Helper of the `goLines` split: accumulate the current line. -/
def goLinesAux (cur : List Char) : List Char → List (List Char)
  | [] => [cur]
  | '\n' :: [] => [cur]
  | '\n' :: t => cur :: goLinesAux [] t
  | c :: t => goLinesAux (cur ++ [c]) t

/-- The lines a POSIX text tool such as `grep` sees in a byte stream:
`\n`-separated, with no empty final line after a terminating `\n`, and
no line at all for empty input. -/
def goLines (s : List Char) : List (List Char) :=
  match s with
  | [] => []
  | _ => goLinesAux [] s

/-- Characters the code's `grep -E` selection does not treat as literal
text: the POSIX extended-regular-expression metacharacters; the single
quote, which would break the shell quoting of the pattern in
`getFilteredPolicyCSV`; and the newline, which would split the quoted
pattern into several grep patterns.  For user names free of these
characters the pattern `^g,<user>,` is exactly a literal prefix test
on each line. -/
def grepSpecial (c : Char) : Bool :=
  c = '.' || c = '[' || c = ']' || c = '\\' || c = '(' || c = ')' ||
  c = '*' || c = '+' || c = '?' || c = Char.ofNat 123 ||
  c = Char.ofNat 125 || c = '|' || c = '^' || c = '$' ||
  c = Char.ofNat 39 || c = '\n'

/-- `GetUserRoles` (src/unnamed/part_007 lines 294-326, via
`getFilteredPolicyCSV` of pkg/client/helper.go): filter the stored
`policy.csv` with `grep -E` for lines introducing a binding of the
user, fall back to the configured default role when nothing matches,
otherwise parse the matched lines and return their roles.  The shell
pattern `^g,<user>,` is modelled as a literal prefix test, which agrees
with `grep -E` exactly when the user name contains no `grepSpecial`
character — the C6 theorem assumes that restriction; `defaultRole` is
the prefix-stripped result of `GetDefaultRole`. -/
def getUserRoles (policyCsv defaultRole u : List Char) :
    Except CsvErr (List (List Char)) :=
  let pat := gTok ++ [','] ++ u ++ [',']
  let matched := (goLines policyCsv).filter (fun l => pat.isPrefixOf l)
  let out := (matched.map (fun l => l ++ ['\n'])).flatten
  if out.isEmpty then
    .ok (if defaultRole.isEmpty then [] else [defaultRole])
  else
    match parseArgoCDPolicyCSV out with
    | .error e => .error e
    | .ok (bs, _) => .ok (bs.map (fun b => b.role))

example : parseArgoCDPolicyCSV
    (s2l "p, role:admin, apps, *, allow\ng, alice, role:admin\n") =
    .ok ([⟨s2l "alice", s2l "admin"⟩],
      [⟨s2l "admin", s2l "apps", s2l "*"⟩]) := by decide

example : updateUserRole (s2l "") (s2l "bob") (s2l "dev") =
    .ok (.applied, s2l "g,bob,role:dev\n") := by decide

example : updateUserRole (s2l "g,bob,role:dev\n") (s2l "bob") (s2l "dev") =
    .ok (.alreadyExists, s2l "g,bob,role:dev\n") := by decide

example : removeUserRole (s2l "g,bob,role:dev\ng,ann,role:dev\n")
    (s2l "bob") (s2l "dev") = .ok (.applied, s2l "g,ann,role:dev\n") := by
  decide

example : getUserRoles (s2l "g,bob,role:dev\n") (s2l "ro") (s2l "bob") =
    .ok [s2l "dev"] := by decide

example : getUserRoles (s2l "g,bob,role:dev\n") (s2l "ro") (s2l "ann") =
    .ok [s2l "ro"] := by decide

/-- The per-record binding extraction implicit in the
`ParseArgoCDPolicyCSV` loop: a record yields a binding exactly when it
is non-empty, its first trimmed field is `g`, and it has at least three
fields. -/
def rowBinding (rec : List (List Char)) : Option PolicyBinding :=
  if rec.length = 0 then none
  else
    match rec.map goTrimSpace with
    | f0 :: f1 :: f2 :: _ =>
      if f0 = gTok then some ⟨f1, goTrimPfx rolePfx f2⟩ else none
    | _ => none

/-- The per-record permission extraction implicit in the
`ParseArgoCDPolicyCSV` loop: a record yields a definition exactly when
it is non-empty, its first trimmed field is `p`, and it has at least
four fields. -/
def rowPolicy (rec : List (List Char)) : Option PolicyDefinition :=
  if rec.length = 0 then none
  else
    match rec.map goTrimSpace with
    | f0 :: f1 :: f2 :: f3 :: _ =>
      if f0 = pTok then some ⟨goTrimPfx rolePfx f1, f2, f3⟩ else none
    | _ => none

lemma gTok_ne_pTok : gTok ≠ pTok := by decide

lemma pTok_ne_gTok : pTok ≠ gTok := by decide

lemma collectPolicies_eq (recs : List (List (List Char))) :
    collectPolicies recs = (recs.filterMap rowBinding, recs.filterMap rowPolicy) := by
  induction recs with
  | nil => rfl
  | cons rec rest ih =>
    by_cases h0 : rec.length = 0
    · simp only [collectPolicies, h0, if_true, ih, List.filterMap_cons,
        rowBinding, rowPolicy]
    · rcases hm : rec.map goTrimSpace with _ | ⟨f0, tl⟩
      · exact absurd (by simpa using congrArg List.length hm) h0
      · by_cases hg : f0 = gTok
        · rcases tl with _ | ⟨f1, tl1⟩
          · simp [collectPolicies, h0, hm, hg, ih, List.filterMap_cons,
              rowBinding, rowPolicy, gTok_ne_pTok]
          · rcases tl1 with _ | ⟨f2, tl2⟩
            · simp [collectPolicies, h0, hm, hg, ih, List.filterMap_cons,
                rowBinding, rowPolicy, gTok_ne_pTok]
            · rcases tl2 with _ | ⟨f3, tl3⟩
              · simp [collectPolicies, h0, hm, hg, ih, List.filterMap_cons,
                  rowBinding, rowPolicy, gTok_ne_pTok]
              · simp [collectPolicies, h0, hm, hg, ih, List.filterMap_cons,
                  rowBinding, rowPolicy, gTok_ne_pTok]
        · by_cases hp : f0 = pTok
          · rcases tl with _ | ⟨f1, tl1⟩
            · simp [collectPolicies, h0, hm, hg, hp, ih, List.filterMap_cons,
                rowBinding, rowPolicy, pTok_ne_gTok]
            · rcases tl1 with _ | ⟨f2, tl2⟩
              · simp [collectPolicies, h0, hm, hg, hp, ih,
                  List.filterMap_cons, rowBinding, rowPolicy, pTok_ne_gTok]
              · rcases tl2 with _ | ⟨f3, tl3⟩
                · simp [collectPolicies, h0, hm, hg, hp, ih,
                    List.filterMap_cons, rowBinding, rowPolicy, pTok_ne_gTok]
                · simp [collectPolicies, h0, hm, hg, hp, ih,
                    List.filterMap_cons, rowBinding, rowPolicy, pTok_ne_gTok]
          · rcases tl with _ | ⟨f1, tl1⟩
            · simp [collectPolicies, h0, hm, hg, hp, ih, List.filterMap_cons,
                rowBinding, rowPolicy]
            · rcases tl1 with _ | ⟨f2, tl2⟩
              · simp [collectPolicies, h0, hm, hg, hp, ih,
                  List.filterMap_cons, rowBinding, rowPolicy]
              · rcases tl2 with _ | ⟨f3, tl3⟩
                · simp [collectPolicies, h0, hm, hg, hp, ih,
                    List.filterMap_cons, rowBinding, rowPolicy]
                · simp [collectPolicies, h0, hm, hg, hp, ih,
                    List.filterMap_cons, rowBinding, rowPolicy]

lemma removeLoop_eq (u r : List Char) (recs : List (List (List Char))) :
    removeLoop u r recs =
      (recs.filter (fun rec => !matchRemoveRec u r rec),
        recs.any (matchRemoveRec u r)) := by
  induction recs with
  | nil => rfl
  | cons rec rest ih =>
    by_cases h : matchRemoveRec u r rec
    · simp [removeLoop, h, ih]
    · simp [removeLoop, h, ih]

lemma mem_dedupFirst {a : List Char} {l : List (List Char)} :
    a ∈ dedupFirst l ↔ a ∈ l := by
  induction l with
  | nil => simp [dedupFirst]
  | cons b t ih =>
    by_cases hab : a = b
    · subst hab; simp [dedupFirst]
    · simp [dedupFirst, hab, ih]

lemma nodup_dedupFirst (l : List (List Char)) : (dedupFirst l).Nodup := by
  induction l with
  | nil => simp [dedupFirst]
  | cons b t ih =>
    refine List.Nodup.cons ?_ (List.Nodup.filter _ ih)
    intro hb
    rcases List.mem_filter.mp hb with ⟨-, hne⟩
    simp at hne

lemma not_contains_of_not_mem {a : Char} {l : List Char} (h : a ∉ l) :
    l.contains a = false := by
  rw [Bool.eq_false_iff]
  intro hc
  exact h (List.mem_of_elem_eq_true hc)

lemma contains_iff_memL {a : List Char} {l : List (List Char)} :
    l.contains a = true ↔ a ∈ l :=
  ⟨List.mem_of_elem_eq_true, List.elem_eq_true_of_mem⟩

/-- Absence of a `\r\n` pair, the only character sequence rewritten by
the reader's newline normalisation. -/
def noCRLF : List Char → Bool
  | [] => true
  | [_] => true
  | c :: c2 :: t => !(c = '\r' && c2 = '\n') && noCRLF (c2 :: t)

lemma normNL_eq_self : ∀ s : List Char, noCRLF s = true → normNL s = s := by
  intro s
  induction s with
  | nil => intro _; rfl
  | cons c t ih =>
    cases t with
    | nil => intro _; rfl
    | cons c2 t2 =>
      intro h
      simp only [noCRLF, Bool.and_eq_true, Bool.not_eq_true',
        Bool.and_eq_false_iff, decide_eq_false_iff_not] at h
      have hcond : ¬(c = '\r' ∧ c2 = '\n') := by
        rcases h.1 with h1 | h1 <;> intro hc <;> [exact h1 hc.1; exact h1 hc.2]
      simp only [normNL, if_neg hcond]
      rw [ih h.2]

lemma noCRLF_of_nl_not_mem : ∀ s : List Char, '\n' ∉ s → noCRLF s = true := by
  intro s
  induction s with
  | nil => intro _; rfl
  | cons c t ih =>
    cases t with
    | nil => intro _; rfl
    | cons c2 t2 =>
      intro h
      have h2 : c2 ≠ '\n' := by
        intro hc; exact h (hc ▸ List.mem_cons_of_mem _ (List.mem_cons_self _ _))
      simp only [noCRLF, Bool.and_eq_true, Bool.not_eq_true',
        Bool.and_eq_false_iff, decide_eq_false_iff_not]
      exact ⟨Or.inr h2, ih (fun hm => h (List.mem_cons_of_mem _ hm))⟩

lemma noCRLF_append : ∀ (a b : List Char), noCRLF a = true → noCRLF b = true →
    (a.getLast? ≠ some '\r' ∨ b.head? ≠ some '\n') →
    noCRLF (a ++ b) = true := by
  intro a
  induction a with
  | nil => intro b _ hb _; simpa using hb
  | cons c t ih =>
    intro b ha hb hx
    cases t with
    | nil =>
      cases b with
      | nil => simpa using ha
      | cons c2 t2 =>
        have hcc : ¬(c = '\r' ∧ c2 = '\n') := by
          rintro ⟨h1, h2⟩
          rcases hx with hx | hx
          · exact hx (by simp [h1])
          · exact hx (by simp [h2])
        simp only [List.cons_append, List.nil_append, noCRLF,
          Bool.and_eq_true, Bool.not_eq_true', Bool.and_eq_false_iff,
          decide_eq_false_iff_not]
        constructor
        · by_cases h1 : c = '\r'
          · exact Or.inr (fun h2 => hcc ⟨h1, h2⟩)
          · exact Or.inl h1
        · exact hb
    | cons c2 t2 =>
      have hrec : noCRLF ((c2 :: t2) ++ b) = true := by
        apply ih b _ hb
        · rcases hx with hx | hx
          · exact Or.inl (by rwa [List.getLast?_cons_cons] at hx)
          · exact Or.inr hx
        · simp only [noCRLF, Bool.and_eq_true] at ha
          exact ha.2
      simp only [noCRLF, Bool.and_eq_true] at ha
      simp only [List.cons_append, noCRLF, Bool.and_eq_true]
      exact ⟨ha.1, by simpa using hrec⟩

lemma dropTrailCR_eq_self {s : List Char} (h : s.getLast? ≠ some '\r') :
    dropTrailCR s = s := by
  simp [dropTrailCR, h]

lemma csvWriteAll_cons (r : List (List Char)) (rs : List (List (List Char))) :
    csvWriteAll (r :: rs) = writeRecord r ++ csvWriteAll rs := by
  simp [csvWriteAll]

lemma skipLine_append : ∀ (x : List Char), '\n' ∉ x → ∀ t,
    csvRun .skipLine (x ++ '\n' :: t) = csvRun .lineStart t := by
  intro x
  induction x with
  | nil => intro _ t; simp [csvRun]
  | cons c y ih =>
    intro hx t
    have hc : ¬c = '\n' := fun h => hx (h ▸ List.mem_cons_self _ _)
    simp only [List.cons_append, csvRun, if_neg hc]
    exact ih (fun h => hx (List.mem_cons_of_mem _ h)) t

lemma skipLine_eof : ∀ (x : List Char), '\n' ∉ x →
    csvRun .skipLine x = .ok [] := by
  intro x
  induction x with
  | nil => intro _; rfl
  | cons c y ih =>
    intro hx
    have hc : ¬c = '\n' := fun h => hx (h ▸ List.mem_cons_self _ _)
    simp only [csvRun, if_neg hc]
    exact ih (fun h => hx (List.mem_cons_of_mem _ h))

lemma lineStart_eq_fieldStart (c : Char) (t : List Char)
    (h1 : c ≠ '#') (h2 : c ≠ '\n') :
    csvRun .lineStart (c :: t) = csvRun (.fieldStart []) (c :: t) := by
  by_cases hc : c = ','
  · subst hc; simp [csvRun]
  · by_cases hq : c = '"'
    · subst hq; simp [csvRun]
    · by_cases hs : isGoSpace c
      · simp [csvRun, h1, h2, hc, hq, hs]
      · simp [csvRun, h1, h2, hc, hq, hs]


lemma fieldStart_comma_step (rec : List (List Char)) (y : List Char) :
    csvRun (.fieldStart rec) (',' :: y) = csvRun (.fieldStart (rec ++ [[]])) y := by
  simp [csvRun]

lemma fieldStart_nl_step (rec : List (List Char)) (y : List Char) :
    csvRun (.fieldStart rec) ('\n' :: y) =
      (csvRun .lineStart y).map (fun l => (rec ++ [[]]) :: l) := by
  simp [csvRun]

lemma fieldStart_quote_step (rec : List (List Char)) (y : List Char) :
    csvRun (.fieldStart rec) ('"' :: y) = csvRun (.inQuoted rec []) y := by
  simp [csvRun]

lemma fieldStart_space_step (rec : List (List Char)) (c : Char) (y : List Char)
    (h1 : c ≠ '\n') (h2 : c ≠ ',') (h3 : c ≠ '"') (h4 : isGoSpace c = true) :
    csvRun (.fieldStart rec) (c :: y) = csvRun (.fieldStart rec) y := by
  simp [csvRun, h1, h2, h3, h4]

lemma fieldStart_data_step (rec : List (List Char)) (c : Char) (y : List Char)
    (h1 : c ≠ '\n') (h2 : c ≠ ',') (h3 : c ≠ '"') (h4 : isGoSpace c = false) :
    csvRun (.fieldStart rec) (c :: y) = csvRun (.inUnquoted rec [c]) y := by
  simp [csvRun, h1, h2, h3, h4]

lemma inUnq_comma_step (rec : List (List Char)) (acc y : List Char)
    (ha : '"' ∉ acc) :
    csvRun (.inUnquoted rec acc) (',' :: y) =
      csvRun (.fieldStart (rec ++ [acc])) y := by
  simp [csvRun, ha]

lemma inUnq_nl_step (rec : List (List Char)) (acc y : List Char)
    (ha : '"' ∉ acc) :
    csvRun (.inUnquoted rec acc) ('\n' :: y) =
      (csvRun .lineStart y).map (fun l => (rec ++ [acc]) :: l) := by
  simp [csvRun, ha]

lemma inUnq_eof_step (rec : List (List Char)) (acc : List Char)
    (ha : '"' ∉ acc) :
    csvRun (.inUnquoted rec acc) [] = .ok [rec ++ [acc]] := by
  simp [csvRun, ha]

lemma inUnq_data_step (rec : List (List Char)) (acc : List Char) (c : Char)
    (y : List Char) (h1 : c ≠ '\n') (h2 : c ≠ ',') :
    csvRun (.inUnquoted rec acc) (c :: y) =
      csvRun (.inUnquoted rec (acc ++ [c])) y := by
  simp [csvRun, h1, h2]

lemma inQ_qq_step (rec : List (List Char)) (acc y : List Char) :
    csvRun (.inQuoted rec acc) ('"' :: '"' :: y) =
      csvRun (.inQuoted rec (acc ++ ['"'])) y := by
  simp [csvRun]

lemma inQ_qcomma_step (rec : List (List Char)) (acc y : List Char) :
    csvRun (.inQuoted rec acc) ('"' :: ',' :: y) =
      csvRun (.fieldStart (rec ++ [acc])) y := by
  simp [csvRun]

lemma inQ_qnl_step (rec : List (List Char)) (acc y : List Char) :
    csvRun (.inQuoted rec acc) ('"' :: '\n' :: y) =
      (csvRun .lineStart y).map (fun l => (rec ++ [acc]) :: l) := by
  simp [csvRun]

lemma inQ_data_step (rec : List (List Char)) (acc : List Char) (c : Char)
    (y : List Char) (hc : c ≠ '"') :
    csvRun (.inQuoted rec acc) (c :: y) =
      csvRun (.inQuoted rec (acc ++ [c])) y := by
  cases y with
  | nil => simp [csvRun, hc]
  | cons c2 t2 => simp [csvRun, hc]

lemma not_mem_append_singleton {c d : Char} {acc : List Char}
    (ha : c ∉ acc) (hc : d ≠ c) : c ∉ acc ++ [d] := by
  intro hm
  rcases List.mem_append.mp hm with hm | hm
  · exact ha hm
  · simp only [List.mem_singleton] at hm
    exact hc hm.symm

lemma inUnq_comma (x : List Char) :
    ∀ (rec : List (List Char)) (acc : List Char) (t : List Char),
    '"' ∉ acc → '"' ∉ x → ',' ∉ x → '\n' ∉ x →
    csvRun (.inUnquoted rec acc) (x ++ ',' :: t) =
      csvRun (.fieldStart (rec ++ [acc ++ x])) t := by
  induction x with
  | nil =>
    intro rec acc t ha _ _ _
    rw [List.nil_append, inUnq_comma_step rec acc t ha]
    simp
  | cons c y ih =>
    intro rec acc t ha hqx hcx hnx
    have hc1 : c ≠ '\n' := fun h => hnx (h ▸ List.mem_cons_self _ _)
    have hc2 : c ≠ ',' := fun h => hcx (h ▸ List.mem_cons_self _ _)
    have hc3 : c ≠ '"' := fun h => hqx (h ▸ List.mem_cons_self _ _)
    rw [List.cons_append, inUnq_data_step rec acc c _ hc1 hc2,
      ih (rec) (acc ++ [c]) t (not_mem_append_singleton ha hc3)
        (fun h => hqx (List.mem_cons_of_mem _ h))
        (fun h => hcx (List.mem_cons_of_mem _ h))
        (fun h => hnx (List.mem_cons_of_mem _ h))]
    simp

lemma inUnq_nl (x : List Char) :
    ∀ (rec : List (List Char)) (acc : List Char) (t : List Char),
    '"' ∉ acc → '"' ∉ x → ',' ∉ x → '\n' ∉ x →
    csvRun (.inUnquoted rec acc) (x ++ '\n' :: t) =
      (csvRun .lineStart t).map (fun l => (rec ++ [acc ++ x]) :: l) := by
  induction x with
  | nil =>
    intro rec acc t ha _ _ _
    rw [List.nil_append, inUnq_nl_step rec acc t ha]
    simp
  | cons c y ih =>
    intro rec acc t ha hqx hcx hnx
    have hc1 : c ≠ '\n' := fun h => hnx (h ▸ List.mem_cons_self _ _)
    have hc2 : c ≠ ',' := fun h => hcx (h ▸ List.mem_cons_self _ _)
    have hc3 : c ≠ '"' := fun h => hqx (h ▸ List.mem_cons_self _ _)
    rw [List.cons_append, inUnq_data_step rec acc c _ hc1 hc2,
      ih (rec) (acc ++ [c]) t (not_mem_append_singleton ha hc3)
        (fun h => hqx (List.mem_cons_of_mem _ h))
        (fun h => hcx (List.mem_cons_of_mem _ h))
        (fun h => hnx (List.mem_cons_of_mem _ h))]
    simp

lemma inQ_comma (f : List Char) :
    ∀ (rec : List (List Char)) (acc : List Char) (t : List Char),
    csvRun (.inQuoted rec acc) (escQ f ++ '"' :: ',' :: t) =
      csvRun (.fieldStart (rec ++ [acc ++ f])) t := by
  induction f with
  | nil =>
    intro rec acc t
    rw [show escQ [] ++ '"' :: ',' :: t = '"' :: ',' :: t from rfl,
      inQ_qcomma_step]
    simp
  | cons c y ih =>
    intro rec acc t
    by_cases hc : c = '"'
    · subst hc
      rw [show escQ ('"' :: y) ++ '"' :: ',' :: t =
          '"' :: '"' :: (escQ y ++ '"' :: ',' :: t) by simp [escQ],
        inQ_qq_step, ih rec (acc ++ ['"']) t]
      simp
    · rw [show escQ (c :: y) ++ '"' :: ',' :: t =
          c :: (escQ y ++ '"' :: ',' :: t) by simp [escQ, hc],
        inQ_data_step rec acc c _ hc, ih rec (acc ++ [c]) t]
      simp

lemma inQ_nl (f : List Char) :
    ∀ (rec : List (List Char)) (acc : List Char) (t : List Char),
    csvRun (.inQuoted rec acc) (escQ f ++ '"' :: '\n' :: t) =
      (csvRun .lineStart t).map (fun l => (rec ++ [acc ++ f]) :: l) := by
  induction f with
  | nil =>
    intro rec acc t
    rw [show escQ [] ++ '"' :: '\n' :: t = '"' :: '\n' :: t from rfl,
      inQ_qnl_step]
    simp
  | cons c y ih =>
    intro rec acc t
    by_cases hc : c = '"'
    · subst hc
      rw [show escQ ('"' :: y) ++ '"' :: '\n' :: t =
          '"' :: '"' :: (escQ y ++ '"' :: '\n' :: t) by simp [escQ],
        inQ_qq_step, ih rec (acc ++ ['"']) t]
      simp
    · rw [show escQ (c :: y) ++ '"' :: '\n' :: t =
          c :: (escQ y ++ '"' :: '\n' :: t) by simp [escQ, hc],
        inQ_data_step rec acc c _ hc, ih rec (acc ++ [c]) t]
      simp

lemma fnq_false_not_mem {f : List Char} (h : fieldNeedsQuotes f = false) :
    ',' ∉ f ∧ '"' ∉ f ∧ '\r' ∉ f ∧ '\n' ∉ f := by
  cases f with
  | nil => simp
  | cons c x =>
    simp only [fieldNeedsQuotes, Bool.or_eq_false_iff, List.any_eq_false] at h
    have hany := h.1.2
    refine ⟨?_, ?_, ?_, ?_⟩ <;> intro hm <;> simpa using hany _ hm

lemma fnq_false_head {c : Char} {x : List Char}
    (h : fieldNeedsQuotes (c :: x) = false) : isGoSpace c = false := by
  simp only [fieldNeedsQuotes, Bool.or_eq_false_iff] at h
  exact h.2

lemma fieldStart_enc_comma (f : List Char) (rec : List (List Char))
    (t : List Char) :
    csvRun (.fieldStart rec) (encodeField f ++ ',' :: t) =
      csvRun (.fieldStart (rec ++ [f])) t := by
  by_cases hq : fieldNeedsQuotes f
  · rw [show encodeField f ++ ',' :: t = '"' :: (escQ f ++ '"' :: ',' :: t) by
      simp [encodeField, hq], fieldStart_quote_step, inQ_comma]
    simp
  · have hq' : fieldNeedsQuotes f = false := by
      rw [← Bool.not_eq_true]; exact hq
    have hnm := fnq_false_not_mem hq'
    cases f with
    | nil =>
      rw [show encodeField [] ++ ',' :: t = ',' :: t by simp [encodeField, hq'],
        fieldStart_comma_step]
    | cons c x =>
      have hs : isGoSpace c = false := fnq_false_head hq'
      have hc1 : c ≠ '\n' := fun h => hnm.2.2.2 (h ▸ List.mem_cons_self _ _)
      have hc2 : c ≠ ',' := fun h => hnm.1 (h ▸ List.mem_cons_self _ _)
      have hc3 : c ≠ '"' := fun h => hnm.2.1 (h ▸ List.mem_cons_self _ _)
      rw [show encodeField (c :: x) ++ ',' :: t = c :: (x ++ ',' :: t) by
        simp [encodeField, hq'], fieldStart_data_step rec c _ hc1 hc2 hc3 hs,
        inUnq_comma x rec [c] t (by simp [Ne.symm hc3])
          (fun h => hnm.2.1 (List.mem_cons_of_mem _ h))
          (fun h => hnm.1 (List.mem_cons_of_mem _ h))
          (fun h => hnm.2.2.2 (List.mem_cons_of_mem _ h))]
      simp

lemma fieldStart_enc_nl (f : List Char) (rec : List (List Char))
    (t : List Char) :
    csvRun (.fieldStart rec) (encodeField f ++ '\n' :: t) =
      (csvRun .lineStart t).map (fun l => (rec ++ [f]) :: l) := by
  by_cases hq : fieldNeedsQuotes f
  · rw [show encodeField f ++ '\n' :: t = '"' :: (escQ f ++ '"' :: '\n' :: t) by
      simp [encodeField, hq], fieldStart_quote_step, inQ_nl]
    simp
  · have hq' : fieldNeedsQuotes f = false := by
      rw [← Bool.not_eq_true]; exact hq
    have hnm := fnq_false_not_mem hq'
    cases f with
    | nil =>
      rw [show encodeField [] ++ '\n' :: t = '\n' :: t by simp [encodeField, hq'],
        fieldStart_nl_step]
    | cons c x =>
      have hs : isGoSpace c = false := fnq_false_head hq'
      have hc1 : c ≠ '\n' := fun h => hnm.2.2.2 (h ▸ List.mem_cons_self _ _)
      have hc2 : c ≠ ',' := fun h => hnm.1 (h ▸ List.mem_cons_self _ _)
      have hc3 : c ≠ '"' := fun h => hnm.2.1 (h ▸ List.mem_cons_self _ _)
      rw [show encodeField (c :: x) ++ '\n' :: t = c :: (x ++ '\n' :: t) by
        simp [encodeField, hq'], fieldStart_data_step rec c _ hc1 hc2 hc3 hs,
        inUnq_nl x rec [c] t (by simp [Ne.symm hc3])
          (fun h => hnm.2.1 (List.mem_cons_of_mem _ h))
          (fun h => hnm.1 (List.mem_cons_of_mem _ h))
          (fun h => hnm.2.2.2 (List.mem_cons_of_mem _ h))]
      simp

lemma fields_line (fs : List (List Char)) : fs ≠ [] →
    ∀ (rec : List (List Char)) (t : List Char),
    csvRun (.fieldStart rec) (writeFields fs ++ '\n' :: t) =
      (csvRun .lineStart t).map (fun l => (rec ++ fs) :: l) := by
  induction fs with
  | nil => intro h; exact absurd rfl h
  | cons f fs ih =>
    intro _ rec t
    cases fs with
    | nil => simpa [writeFields] using fieldStart_enc_nl f rec t
    | cons f2 fs2 =>
      rw [show writeFields (f :: f2 :: fs2) ++ '\n' :: t =
          encodeField f ++ ',' :: (writeFields (f2 :: fs2) ++ '\n' :: t) by
        simp [writeFields], fieldStart_enc_comma f rec _,
        ih (by simp) (rec ++ [f]) t]
      simp

/-- A record written by `csv.Writer` that survives re-parsing: it is
dropped when its written line is empty (the record `[]` or `[""]`) or
when its first written character is `#` (an unquoted first field
starting with `#`), because the reader skips such lines. -/
def rowSurvives (r : List (List Char)) : Bool :=
  match r with
  | [] => false
  | f :: fs =>
    if f = [] ∧ fs = [] then false
    else if fieldNeedsQuotes f = false ∧ f.head? = some '#' then false
    else true

lemma lineStart_nl_step (y : List Char) :
    csvRun .lineStart ('\n' :: y) = csvRun .lineStart y := by
  simp [csvRun]

lemma lineStart_comment_step (y : List Char) :
    csvRun .lineStart ('#' :: y) = csvRun .skipLine y := by
  simp [csvRun]

lemma mem_escQ {c : Char} : ∀ {f : List Char}, c ∈ escQ f → c ∈ f ∨ c = '"' := by
  intro f
  induction f with
  | nil => intro h; simp [escQ] at h
  | cons d y ih =>
    intro h
    by_cases hd : d = '"'
    · subst hd
      simp only [escQ, if_pos rfl] at h
      rcases List.mem_cons.mp h with h | h
      · exact Or.inr h
      · rcases List.mem_cons.mp h with h | h
        · exact Or.inr h
        · rcases ih h with h' | h'
          · exact Or.inl (List.mem_cons_of_mem _ h')
          · exact Or.inr h'
    · simp only [escQ, if_neg hd] at h
      rcases List.mem_cons.mp h with h | h
      · exact Or.inl (h ▸ List.mem_cons_self _ _)
      · rcases ih h with h' | h'
        · exact Or.inl (List.mem_cons_of_mem _ h')
        · exact Or.inr h'

lemma noNL_encodeField {f : List Char} (h : '\n' ∉ f) :
    '\n' ∉ encodeField f := by
  by_cases hq : fieldNeedsQuotes f
  · simp only [encodeField, if_pos hq]
    intro hm
    rcases List.mem_cons.mp hm with hm | hm
    · exact absurd hm (by decide)
    · rcases List.mem_append.mp hm with hm | hm
      · rcases mem_escQ hm with h' | h'
        · exact h h'
        · exact absurd h' (by decide)
      · exact absurd (List.mem_singleton.mp hm) (by decide)
  · simpa [encodeField, hq] using h

lemma noNL_writeFields : ∀ (fs : List (List Char)),
    (∀ f ∈ fs, '\n' ∉ f) → '\n' ∉ writeFields fs := by
  intro fs
  induction fs with
  | nil => intro _; simp [writeFields]
  | cons f fs ih =>
    intro h
    cases fs with
    | nil =>
      simpa [writeFields] using noNL_encodeField (h f (List.mem_cons_self _ _))
    | cons f2 fs2 =>
      simp only [writeFields]
      intro hm
      rcases List.mem_append.mp hm with hm | hm
      · exact noNL_encodeField (h f (List.mem_cons_self _ _)) hm
      · rcases List.mem_cons.mp hm with hm | hm
        · exact absurd hm (by decide)
        · exact ih (fun g hg => h g (List.mem_cons_of_mem _ hg)) hm

lemma writeFields_head_facts (f : List Char) (fs : List (List Char))
    (h1 : ¬(f = [] ∧ fs = []))
    (h2 : ¬(fieldNeedsQuotes f = false ∧ f.head? = some '#'))
    (hnl : '\n' ∉ f) :
    ∃ c y, writeFields (f :: fs) = c :: y ∧ c ≠ '#' ∧ c ≠ '\n' := by
  by_cases hq : fieldNeedsQuotes f
  · cases fs with
    | nil =>
      exact ⟨'"', escQ f ++ ['"'], by simp [writeFields, encodeField, hq],
        by decide, by decide⟩
    | cons f2 fs2 =>
      refine ⟨'"', (escQ f ++ ['"']) ++ ',' :: writeFields (f2 :: fs2), ?_,
        by decide, by decide⟩
      simp [writeFields, encodeField, hq]
  · have hq' : fieldNeedsQuotes f = false := by rw [← Bool.not_eq_true]; exact hq
    cases f with
    | nil =>
      cases fs with
      | nil => exact absurd ⟨rfl, rfl⟩ h1
      | cons f2 fs2 =>
        exact ⟨',', writeFields (f2 :: fs2),
          by simp [writeFields, encodeField, hq'], by decide, by decide⟩
    | cons c x =>
      have hc1 : c ≠ '#' := by
        intro hc; exact h2 ⟨hq', by simp [hc]⟩
      have hc2 : c ≠ '\n' := fun h => hnl (h ▸ List.mem_cons_self _ _)
      cases fs with
      | nil => exact ⟨c, x, by simp [writeFields, encodeField, hq'], hc1, hc2⟩
      | cons f2 fs2 =>
        exact ⟨c, x ++ ',' :: writeFields (f2 :: fs2),
          by simp [writeFields, encodeField, hq'], hc1, hc2⟩

lemma record_line (r : List (List Char)) (rest : List Char)
    (hs : rowSurvives r = true) (hnl : ∀ f ∈ r, '\n' ∉ f) :
    csvRun .lineStart (writeRecord r ++ rest) =
      (csvRun .lineStart rest).map (fun l => r :: l) := by
  cases r with
  | nil => simp [rowSurvives] at hs
  | cons f fs =>
    have h1 : ¬(f = [] ∧ fs = []) := by
      rintro ⟨rfl, rfl⟩
      simp [rowSurvives] at hs
    have h2 : ¬(fieldNeedsQuotes f = false ∧ f.head? = some '#') := by
      intro hc
      rw [rowSurvives, if_neg h1, if_pos hc] at hs
      exact Bool.false_ne_true hs
    obtain ⟨c, y, hcy, hc1, hc2⟩ :=
      writeFields_head_facts f fs h1 h2 (hnl f (List.mem_cons_self _ _))
    have hre : writeRecord (f :: fs) ++ rest =
        writeFields (f :: fs) ++ '\n' :: rest := by
      simp [writeRecord]
    rw [hre]
    have hstep : csvRun .lineStart (writeFields (f :: fs) ++ '\n' :: rest) =
        csvRun (.fieldStart []) (writeFields (f :: fs) ++ '\n' :: rest) := by
      rw [hcy, List.cons_append]
      exact lineStart_eq_fieldStart c _ hc1 hc2
    rw [hstep, fields_line (f :: fs) (by simp) [] rest]
    simp

lemma record_line_vanish (r : List (List Char)) (rest : List Char)
    (hs : rowSurvives r = false) (hnl : ∀ f ∈ r, '\n' ∉ f) :
    csvRun .lineStart (writeRecord r ++ rest) = csvRun .lineStart rest := by
  cases r with
  | nil =>
    rw [show writeRecord [] ++ rest = '\n' :: rest by
      simp [writeRecord, writeFields], lineStart_nl_step]
  | cons f fs =>
    by_cases h1 : f = [] ∧ fs = []
    · rcases h1 with ⟨rfl, rfl⟩
      rw [show writeRecord [([] : List Char)] ++ rest = '\n' :: rest by
        simp [writeRecord, writeFields, encodeField, fieldNeedsQuotes],
        lineStart_nl_step]
    · have h2 : fieldNeedsQuotes f = false ∧ f.head? = some '#' := by
        by_contra hcon
        rw [rowSurvives, if_neg h1, if_neg hcon] at hs
        exact Bool.true_eq_false ▸ hs
      obtain ⟨x, hx⟩ : ∃ x, f = '#' :: x := by
        cases f with
        | nil => simp at h2
        | cons c0 x0 =>
          have := h2.2
          simp only [List.head?_cons, Option.some.injEq] at this
          exact ⟨x0, by rw [this]⟩
      subst hx
      have henc : encodeField ('#' :: x) = '#' :: x := by
        simp [encodeField, h2.1]
      have hnx : '\n' ∉ x :=
        fun hm => hnl _ (List.mem_cons_self _ _) (List.mem_cons_of_mem _ hm)
      cases fs with
      | nil =>
        rw [show writeRecord [('#' :: x)] ++ rest = '#' :: (x ++ '\n' :: rest) by
          simp [writeRecord, writeFields, henc], lineStart_comment_step,
          skipLine_append x hnx rest]
      | cons f2 fs2 =>
        have hnw : '\n' ∉ writeFields (f2 :: fs2) :=
          noNL_writeFields _ (fun g hg => hnl g (List.mem_cons_of_mem _ hg))
        have hbody : '\n' ∉ x ++ ',' :: writeFields (f2 :: fs2) := by
          intro hm
          rcases List.mem_append.mp hm with hm | hm
          · exact hnx hm
          · rcases List.mem_cons.mp hm with hm | hm
            · exact absurd hm (by decide)
            · exact hnw hm
        rw [show writeRecord (('#' :: x) :: f2 :: fs2) ++ rest =
            '#' :: ((x ++ ',' :: writeFields (f2 :: fs2)) ++ '\n' :: rest) by
          simp [writeRecord, writeFields, henc], lineStart_comment_step,
          skipLine_append _ hbody rest]

lemma csvRun_writeAll : ∀ (rs : List (List (List Char))),
    (∀ r ∈ rs, ∀ f ∈ r, '\n' ∉ f) →
    csvRun .lineStart (csvWriteAll rs) = .ok (rs.filter rowSurvives) := by
  intro rs
  induction rs with
  | nil => intro _; simp [csvWriteAll, csvRun]
  | cons r rs ih =>
    intro h
    rw [csvWriteAll_cons]
    by_cases hs : rowSurvives r
    · rw [record_line r _ hs (h r (List.mem_cons_self _ _)),
        ih (fun g hg f hf => h g (List.mem_cons_of_mem _ hg) f hf)]
      simp [List.filter_cons, hs, Except.map]
    · rw [record_line_vanish r _ (by rw [← Bool.not_eq_true]; exact hs)
        (h r (List.mem_cons_self _ _)),
        ih (fun g hg f hf => h g (List.mem_cons_of_mem _ hg) f hf)]
      simp [List.filter_cons, hs]

lemma cr_not_mem_encodeField_unquoted {f : List Char}
    (hq : fieldNeedsQuotes f = false) : '\r' ∉ f :=
  (fnq_false_not_mem hq).2.2.1

lemma getLast?_writeFields_ne_cr : ∀ (fs : List (List Char)),
    (writeFields fs).getLast? ≠ some '\r' := by
  intro fs
  induction fs with
  | nil => simp [writeFields]
  | cons f fs ih =>
    cases fs with
    | nil =>
      by_cases hq : fieldNeedsQuotes f
      · rw [show writeFields [f] = ('"' :: escQ f) ++ ['"'] by
          simp [writeFields, encodeField, hq]]
        rw [List.getLast?_concat]
        decide
      · have hq' : fieldNeedsQuotes f = false := by
          rw [← Bool.not_eq_true]; exact hq
        rw [show writeFields [f] = f by simp [writeFields, encodeField, hq']]
        intro hc
        obtain ⟨hne, he⟩ :=
          List.mem_getLast?_eq_getLast (Option.mem_def.mpr hc)
        exact cr_not_mem_encodeField_unquoted hq'
          (he ▸ List.getLast_mem hne)
    | cons f2 fs2 =>
      rw [show writeFields (f :: f2 :: fs2) =
          encodeField f ++ ',' :: writeFields (f2 :: fs2) by simp [writeFields]]
      cases hwf : writeFields (f2 :: fs2) with
      | nil =>
        rw [show encodeField f ++ ',' :: ([] : List Char) =
            encodeField f ++ [','] from rfl, List.getLast?_concat]
        decide
      | cons w ws =>
        rw [List.getLast?_append_cons, List.getLast?_cons_cons, ← hwf]
        exact ih

lemma noCRLF_writeRecord {r : List (List Char)} (h : ∀ f ∈ r, '\n' ∉ f) :
    noCRLF (writeRecord r) = true := by
  have hnl : '\n' ∉ writeFields r := noNL_writeFields r h
  exact noCRLF_append (writeFields r) ['\n']
    (noCRLF_of_nl_not_mem _ hnl) rfl
    (Or.inl (getLast?_writeFields_ne_cr r))

lemma getLast?_writeRecord (r : List (List Char)) :
    (writeRecord r).getLast? = some '\n' := by
  rw [writeRecord, List.getLast?_concat]

lemma getLast?_csvWriteAll : ∀ (rs : List (List (List Char))), rs ≠ [] →
    (csvWriteAll rs).getLast? = some '\n' := by
  intro rs
  induction rs with
  | nil => intro h; exact absurd rfl h
  | cons r rs ih =>
    intro _
    rw [csvWriteAll_cons]
    cases hrs : csvWriteAll rs with
    | nil => rw [List.append_nil]; exact getLast?_writeRecord r
    | cons w ws =>
      rw [List.getLast?_append_of_ne_nil _ (by simp), ← hrs]
      rcases rs with _ | ⟨r2, rs2⟩
      · simp [csvWriteAll] at hrs
      · exact ih (by simp)

lemma noCRLF_csvWriteAll : ∀ (rs : List (List (List Char))),
    (∀ r ∈ rs, ∀ f ∈ r, '\n' ∉ f) → noCRLF (csvWriteAll rs) = true := by
  intro rs
  induction rs with
  | nil => intro _; rfl
  | cons r rs ih =>
    intro h
    rw [csvWriteAll_cons]
    exact noCRLF_append (writeRecord r) (csvWriteAll rs)
      (noCRLF_writeRecord (h r (List.mem_cons_self _ _)))
      (ih (fun g hg f hf => h g (List.mem_cons_of_mem _ hg) f hf))
      (Or.inl (by rw [getLast?_writeRecord]; decide))

/-- Re-parsing a written document: on records whose fields contain no
newline, `csv.Reader.ReadAll` of `csv.Writer.WriteAll` returns exactly
the surviving records (all records except empty-line records and
records whose written line is a comment line), in order. -/
lemma csvReadAll_writeAll (rs : List (List (List Char)))
    (h : ∀ r ∈ rs, ∀ f ∈ r, '\n' ∉ f) :
    csvReadAll (csvWriteAll rs) = .ok (rs.filter rowSurvives) := by
  rw [csvReadAll, normNL_eq_self _ (noCRLF_csvWriteAll rs h),
    dropTrailCR_eq_self, csvRun_writeAll rs h]
  rcases rs with _ | ⟨r, rs2⟩
  · simp [csvWriteAll]
  · rw [getLast?_csvWriteAll _ (by simp)]
    decide

lemma matchGrantRec_self (u pr : List Char) :
    matchGrantRec u pr [gTok, u, pr] = true := by
  simp [matchGrantRec]

lemma rowSurvives_grant_row (u pr : List Char) :
    rowSurvives [gTok, u, pr] = true := by
  have h1 : ¬(gTok = ([] : List Char) ∧ ([u, pr] : List (List Char)) = []) := by
    rintro ⟨-, h⟩; simp at h
  have h2 : ¬(fieldNeedsQuotes gTok = false ∧ gTok.head? = some '#') := by
    rintro ⟨-, h⟩
    simp [gTok, s2l] at h
  rw [rowSurvives, if_neg h1, if_neg h2]

lemma noNL_withRolePfx {r : List Char} (hr : '\n' ∉ r) :
    '\n' ∉ withRolePfx r := by
  rw [withRolePfx]
  by_cases hp : rolePfx.isPrefixOf r
  · simpa [hp] using hr
  · simp only [hp, Bool.false_eq_true, if_false]
    intro hm
    rcases List.mem_append.mp hm with hm | hm
    · exact absurd hm (by decide)
    · exact hr hm

lemma noNL_gTok : '\n' ∉ gTok := by decide

/-- C1.  As frozen, the claim is false: a grant on a document that
already carries the prefixed binding answers `AlreadyExists` on the
first call, a subject containing `\r\n` is rewritten by the CSV
round-trip so that the second call answers `Applied` again, and a
multi-line quoted field whose record turns into a comment line can make
the second call fail outright.  Amended claim, as proved here: for a
parseable document none of whose parsed fields contains a newline, and
a subject and role containing no newline, the first `UpdateUserRole`
call answers `Applied` exactly when no record already carries the
`(g, subject, prefixed role)` triple, and — whatever the first outcome
was — the second call answers `AlreadyExists` and returns the document
produced by the first call unchanged. -/
theorem C1_grant_idempotent_amended (doc u r : List Char)
    (recs : List (List (List Char)))
    (hdoc : csvReadAll doc = .ok recs)
    (hfields : ∀ rec ∈ recs, ∀ f ∈ rec, '\n' ∉ f)
    (hu : '\n' ∉ u) (hr : '\n' ∉ r) :
    ∃ o1 d1, updateUserRole doc u r = .ok (o1, d1) ∧
      (o1 = UpdateOutcome.applied ↔
        ¬ ∃ rec ∈ recs, matchGrantRec u (withRolePfx r) rec = true) ∧
      updateUserRole d1 u r = .ok (.alreadyExists, d1) := by
  by_cases hex : recs.any (matchGrantRec u (withRolePfx r)) = true
  · refine ⟨.alreadyExists, doc, ?_, ?_, ?_⟩
    · rw [updateUserRole, hdoc]
      simp [hex]
    · constructor
      · intro h; exact absurd h (by simp)
      · intro hno; exact absurd (List.any_eq_true.mp hex) hno
    · rw [updateUserRole, hdoc]
      simp [hex]
  · have hexf : recs.any (matchGrantRec u (withRolePfx r)) = false := by
      rw [← Bool.not_eq_true]; exact hex
    set pr := withRolePfx r with hpr
    set d1 := csvWriteAll (recs ++ [[gTok, u, pr]]) with hd1
    have hfirst : updateUserRole doc u r = .ok (.applied, d1) := by
      rw [updateUserRole, hdoc]
      simp [hexf]
    refine ⟨.applied, d1, hfirst, ?_, ?_⟩
    · constructor
      · intro _ hcon
        exact hex (List.any_eq_true.mpr hcon)
      · intro _; rfl
    · have hall : ∀ rec ∈ recs ++ [[gTok, u, pr]], ∀ f ∈ rec, '\n' ∉ f := by
        intro rec hrec f hf
        rcases List.mem_append.mp hrec with hrec | hrec
        · exact hfields rec hrec f hf
        · rcases List.mem_singleton.mp hrec with rfl
          rcases List.mem_cons.mp hf with rfl | hf
          · exact noNL_gTok
          · rcases List.mem_cons.mp hf with rfl | hf
            · exact hu
            · rcases List.mem_cons.mp hf with rfl | hf
              · exact noNL_withRolePfx hr
              · simp at hf
      have hparse2 : csvReadAll d1 =
          .ok ((recs ++ [[gTok, u, pr]]).filter rowSurvives) := by
        rw [hd1]
        exact csvReadAll_writeAll _ hall
      have hmem : [gTok, u, pr] ∈ (recs ++ [[gTok, u, pr]]).filter rowSurvives := by
        apply List.mem_filter.mpr
        exact ⟨List.mem_append.mpr (Or.inr (List.mem_singleton.mpr rfl)),
          rowSurvives_grant_row u pr⟩
      have hany2 : ((recs ++ [[gTok, u, pr]]).filter rowSurvives).any
          (matchGrantRec u pr) = true :=
        List.any_eq_true.mpr ⟨_, hmem, matchGrantRec_self u pr⟩
      rw [updateUserRole, hparse2]
      simp only [hany2, if_true]

/-- Witness for C1: a concrete run discharging every hypothesis of the
amended theorem. -/
theorem C1_witness :
    ∃ o1 d1, updateUserRole (s2l "g,bob,role:dev\n") (s2l "alice")
        (s2l "admin") = .ok (o1, d1) ∧
      (o1 = UpdateOutcome.applied ↔
        ¬ ∃ rec ∈ [[s2l "g", s2l "bob", s2l "role:dev"]],
          matchGrantRec (s2l "alice") (withRolePfx (s2l "admin")) rec = true) ∧
      updateUserRole d1 (s2l "alice") (s2l "admin") =
        .ok (.alreadyExists, d1) :=
  C1_grant_idempotent_amended _ _ _ _ (by decide) (by decide) (by decide)
    (by decide)

/-- Counterexample for C1 as frozen.  First conjunct: on a document
already carrying the binding, the first call answers `AlreadyExists`,
not `Applied`.  Remaining conjuncts: with a subject containing `\r\n`,
the first call applies, but the CSV round-trip rewrites `\r\n` to `\n`,
so the second call applies again (appending a second row) instead of
answering `AlreadyExists`; and with a multi-line quoted field whose
written record starts with `#`, the document written by the first call
does not even re-parse, so the second call errors. -/
theorem C1_counterexample :
    updateUserRole (s2l "g,alice,role:admin\n") (s2l "alice")
        (s2l "admin") = .ok (.alreadyExists, s2l "g,alice,role:admin\n") ∧
    updateUserRole (s2l "") (s2l "a\r\nb") (s2l "x") =
      .ok (.applied, s2l "g,\"a\r\nb\",role:x\n") ∧
    updateUserRole (s2l "g,\"a\r\nb\",role:x\n") (s2l "a\r\nb") (s2l "x") =
      .ok (.applied, s2l "g,\"a\nb\",role:x\ng,\"a\r\nb\",role:x\n") ∧
    updateUserRole (s2l "\"#a\",\"b\nc\"\n") (s2l "x") (s2l "y") =
      .ok (.applied, s2l "#a,\"b\nc\"\ng,x,role:y\n") ∧
    updateUserRole (s2l "#a,\"b\nc\"\ng,x,role:y\n") (s2l "x") (s2l "y") =
      .error .bareQuote := by
  decide

/-- C2.  As frozen, the claim is false: the duplicate-detection of
`UpdateUserRole` compares the raw third field of each record against
the prefix-normalised role only, so an existing row carrying the bare
role name is not detected.  Amended claim, as proved here: for every
parseable document, `UpdateUserRole` answers `GrantAlreadyExists` and
returns the stored text unchanged exactly when some record's first
three fields are exactly `g`, the subject, and the role with the
`role:` prefix added when absent. -/
theorem C2_detection_amended (doc u r : List Char)
    (recs : List (List (List Char)))
    (hdoc : csvReadAll doc = .ok recs) :
    updateUserRole doc u r = .ok (.alreadyExists, doc) ↔
      ∃ rec ∈ recs, matchGrantRec u (withRolePfx r) rec = true := by
  constructor
  · intro h
    by_cases hex : recs.any (matchGrantRec u (withRolePfx r)) = true
    · exact List.any_eq_true.mp hex
    · exfalso
      rw [updateUserRole, hdoc] at h
      simp only [if_neg hex] at h
      simp at h
  · intro hex
    rw [updateUserRole, hdoc]
    simp only [if_pos (List.any_eq_true.mpr hex)]

/-- Witness for C2's amended theorem at a concrete input. -/
theorem C2_witness :
    updateUserRole (s2l "g,bob,role:dev\n") (s2l "bob") (s2l "dev") =
        .ok (.alreadyExists, s2l "g,bob,role:dev\n") ↔
      ∃ rec ∈ [[s2l "g", s2l "bob", s2l "role:dev"]],
        matchGrantRec (s2l "bob") (withRolePfx (s2l "dev")) rec = true :=
  C2_detection_amended _ _ _ _ (by decide)

/-- Counterexample for C2 as frozen: the document carries the binding
with the bare role name, yet the grant applies and appends a second
(prefixed) row instead of answering `AlreadyExists` with the document
unchanged. -/
theorem C2_counterexample :
    updateUserRole (s2l "g,alice,admin\n") (s2l "alice") (s2l "admin") =
      .ok (.applied, s2l "g,alice,admin\ng,alice,role:admin\n") := by
  decide

/-- C3.  Evaluation of the code at the failing input: the default role
is `readonly` and the account's only explicit binding is to it, yet
`RemoveUserRole` (which never consults the configured default role)
deletes the row and answers `Applied`, writing back an empty policy —
the claim (and the in-repo test expecting `AlreadyRevoked` for the
default role) requires `AlreadyRevoked` with the document unchanged. -/
theorem C3_code_eval :
    removeUserRole (s2l "g,alice,role:readonly\n") (s2l "alice")
      (s2l "readonly") = .ok (.applied, []) := by
  decide

/-- C4.  As frozen, the claim is false only in that comment lines (and
blank lines) are part of "every other row/line" yet are dropped by the
write-back, because the CSV reader removes them before the records are
re-serialised.  Amended claim, as proved here: when the revoke applies,
the records written back are exactly the parsed records of the
document with every record matching `(g, subject, role)` — duplicates
included, the role field compared after stripping a `role:` prefix —
removed, all remaining records unchanged and in their original order;
comment and blank lines, which are not records, are dropped. -/
theorem C4_revoke_frame_amended (doc u r : List Char)
    (recs : List (List (List Char)))
    (hdoc : csvReadAll doc = .ok recs)
    (hex : ∃ rec ∈ recs, matchRemoveRec u r rec = true) :
    removeUserRole doc u r =
      .ok (.applied,
        csvWriteAll (recs.filter (fun rec => !matchRemoveRec u r rec))) := by
  rw [removeUserRole, hdoc]
  simp only [removeLoop_eq, List.any_eq_true.mpr hex, if_true]

/-- Witness for C4's amended theorem: the subject holds the role both
in prefixed and bare form, both rows are removed, and the unrelated
binding and permission rule stay in place and in order. -/
theorem C4_witness :
    removeUserRole (s2l "g,a,role:x\ng,b,role:y\ng,a,x\np,role:z,r,w\n")
      (s2l "a") (s2l "x") =
      .ok (.applied,
        csvWriteAll ([[s2l "g", s2l "a", s2l "role:x"],
          [s2l "g", s2l "b", s2l "role:y"], [s2l "g", s2l "a", s2l "x"],
          [s2l "p", s2l "role:z", s2l "r", s2l "w"]].filter
            (fun rec => !matchRemoveRec (s2l "a") (s2l "x") rec))) :=
  C4_revoke_frame_amended _ _ _ _ (by decide) (by decide)

/-- Counterexample for C4 as frozen: a comment line present before the
revoke is gone from the written-back document. -/
theorem C4_counterexample :
    removeUserRole (s2l "# keep\ng,alice,role:dev\ng,bob,role:dev\n")
      (s2l "alice") (s2l "dev") = .ok (.applied, s2l "g,bob,role:dev\n") ∧
    (s2l "# keep") ∉ goLines (s2l "g,bob,role:dev\n") := by
  decide

lemma getSubjectsForRole_ok_cases {doc roleName : List Char}
    {subs : List (List Char)}
    (h : getSubjectsForRole doc roleName = .ok subs) :
    subs = [] ∨
      ∃ bs ps, (goTrimSpace doc).isEmpty = false ∧
        parseArgoCDPolicyCSV doc = .ok (bs, ps) ∧
        subs = dedupFirst ((bs.filter (fun b => b.role = roleName)).map
          (fun b => b.subject)) := by
  rw [getSubjectsForRole] at h
  by_cases he : (goTrimSpace doc).isEmpty
  · rw [if_pos he] at h
    exact Or.inl (Except.ok.inj h).symm
  · rw [if_neg he] at h
    cases hp : parseArgoCDPolicyCSV doc with
    | error e => rw [hp] at h; exact absurd h (by simp)
    | ok bsps =>
      obtain ⟨bs, ps⟩ := bsps
      rw [hp] at h
      exact Or.inr ⟨bs, ps, by simpa using he, rfl, (Except.ok.inj h).symm⟩

lemma getSubjectsForRole_nodup {doc roleName : List Char}
    {subs : List (List Char)}
    (h : getSubjectsForRole doc roleName = .ok subs) : subs.Nodup := by
  rcases getSubjectsForRole_ok_cases h with rfl | ⟨bs, ps, -, -, rfl⟩
  · exact List.nodup_nil
  · exact nodup_dedupFirst _

lemma getPolicyGrants_eq {doc : List Char} {pgs : List PolicyGrant}
    {bs : List PolicyBinding} {ps : List PolicyDefinition}
    (hne : (goTrimSpace doc).isEmpty = false)
    (hp : parseArgoCDPolicyCSV doc = .ok (bs, ps))
    (h : getPolicyGrants doc = .ok pgs) :
    pgs = (bs.filter (fun b => !b.subject.isEmpty && !b.role.isEmpty)).map
      (fun b => ⟨b.subject, b.role⟩) := by
  rw [getPolicyGrants, if_neg (by simp [hne]), hp] at h
  exact (Except.ok.inj h).symm

lemma mem_handleDefaultRoleGrants {keys : List (List Char)}
    {pgs : List PolicyGrant} {a : List Char} (hk : a ∈ keys) :
    (a ∈ handleDefaultRoleGrants keys pgs ↔
      ¬ ∃ pg ∈ pgs, pg.subject = a) := by
  rw [handleDefaultRoleGrants]
  constructor
  · intro hm ⟨pg, hpg, hpga⟩
    rcases List.mem_filter.mp hm with ⟨-, hno⟩
    simp only [Bool.not_eq_true', Bool.eq_false_iff] at hno
    apply hno
    apply List.elem_eq_true_of_mem
    apply mem_dedupFirst.mpr
    apply List.mem_map.mpr
    refine ⟨pg, List.mem_filter.mpr ⟨hpg, ?_⟩, hpga⟩
    exact List.elem_eq_true_of_mem (hpga ▸ hk)
  · intro hno
    apply List.mem_filter.mpr
    refine ⟨hk, ?_⟩
    simp only [Bool.not_eq_true', Bool.eq_false_iff]
    intro hc
    rcases List.mem_map.mp (mem_dedupFirst.mp (List.mem_of_elem_eq_true hc))
      with ⟨pg, hpg, hpga⟩
    exact hno ⟨pg, (List.mem_filter.mp hpg).1, hpga⟩

/-- C5.  As frozen, the claim is false for degenerate empty account
names: a local account named `""` with a `g` row binding `""` to the
default role is granted the role twice (once explicitly, once
implicitly), because `GetPolicyGrants` filters out empty-subject
bindings before the implicit-membership check.  Amended claim, as
proved here: for local accounts with non-empty names and a non-empty
default role, resolving the default role's members yields the explicit
members followed by exactly those local accounts that have no entry in
`GetPolicyGrants` (no binding with a non-empty subject and non-empty
role), each account at most once overall, and an account with any
such binding — to whatever role — is never an implicit member. -/
theorem C5_default_members_amended (doc : List Char)
    (accounts : List (List Char)) (roleName : List Char)
    (subs : List (List Char)) (pgs : List PolicyGrant)
    (hacc : ∀ a ∈ accounts, a ≠ ([] : List Char))
    (hrole : roleName ≠ [])
    (hsubs : getSubjectsForRole doc roleName = .ok subs)
    (hpgs : getPolicyGrants doc = .ok pgs) :
    ∃ ex im,
      grantsForDefaultRole doc accounts roleName = .ok (ex ++ im) ∧
      (∀ a, a ∈ im ↔ (a ∈ accounts ∧ ¬ ∃ pg ∈ pgs, pg.subject = a)) ∧
      (ex ++ im).Nodup ∧
      (∀ a, (∃ pg ∈ pgs, pg.subject = a) → a ∉ im) := by
  refine ⟨handleExplicitGrants subs (dedupFirst accounts),
    handleDefaultRoleGrants (dedupFirst accounts) pgs, ?_, ?_, ?_, ?_⟩
  · rw [grantsForDefaultRole, hsubs, hpgs]
  · intro a
    constructor
    · intro hm
      have hk : a ∈ dedupFirst accounts := (List.mem_filter.mp hm).1
      exact ⟨mem_dedupFirst.mp hk, (mem_handleDefaultRoleGrants hk).mp hm⟩
    · rintro ⟨hacc', hno⟩
      exact (mem_handleDefaultRoleGrants (mem_dedupFirst.mpr hacc')).mpr hno
  · apply List.Nodup.append
    · exact List.Nodup.filter _ (getSubjectsForRole_nodup hsubs)
    · exact List.Nodup.filter _ (nodup_dedupFirst _)
    · intro a hex him
      have hk : a ∈ dedupFirst accounts := by
        rcases List.mem_filter.mp hex with ⟨-, hc⟩
        exact List.mem_of_elem_eq_true hc
      have hane : a ≠ [] := hacc a (mem_dedupFirst.mp hk)
      have hsub : a ∈ subs := (List.mem_filter.mp hex).1
      have hno : ¬ ∃ pg ∈ pgs, pg.subject = a :=
        (mem_handleDefaultRoleGrants hk).mp him
      rcases getSubjectsForRole_ok_cases hsubs with rfl | ⟨bs, ps, hne, hp, rfl⟩
      · simp at hsub
      · rcases List.mem_map.mp (mem_dedupFirst.mp hsub) with ⟨b, hbf, hbs⟩
        rcases List.mem_filter.mp hbf with ⟨hb, hbr⟩
        have hbrole : b.role = roleName := by simpa using hbr
        have hpgse : pgs =
            (bs.filter (fun b => !b.subject.isEmpty && !b.role.isEmpty)).map
              (fun b => ⟨b.subject, b.role⟩) :=
          getPolicyGrants_eq hne hp hpgs
        apply hno
        refine ⟨⟨b.subject, b.role⟩, ?_, hbs⟩
        rw [hpgse]
        refine List.mem_map.mpr ⟨b, List.mem_filter.mpr ⟨hb, ?_⟩, rfl⟩
        rw [hbs, hbrole]
        cases a with
        | nil => exact absurd rfl hane
        | cons c cs =>
          cases roleName with
          | nil => exact absurd rfl hrole
          | cons d ds => rfl
  · intro a hex him
    have hk : a ∈ dedupFirst accounts := (List.mem_filter.mp him).1
    exact (mem_handleDefaultRoleGrants hk).mp him hex

/-- Witness for C5 at a concrete input: document `g,alice,role:admin`,
accounts `alice` and `bob`, default role `readonly`. -/
theorem C5_witness :
    ∃ ex im,
      grantsForDefaultRole (s2l "g,alice,role:admin\n")
        [s2l "alice", s2l "bob"] (s2l "readonly") = .ok (ex ++ im) ∧
      (∀ a, a ∈ im ↔ (a ∈ [s2l "alice", s2l "bob"] ∧
        ¬ ∃ pg ∈ [(⟨s2l "alice", s2l "admin"⟩ : PolicyGrant)],
          pg.subject = a)) ∧
      (ex ++ im).Nodup ∧
      (∀ a, (∃ pg ∈ [(⟨s2l "alice", s2l "admin"⟩ : PolicyGrant)],
        pg.subject = a) → a ∉ im) :=
  C5_default_members_amended (s2l "g,alice,role:admin\n")
    [s2l "alice", s2l "bob"] (s2l "readonly")
    [] [⟨s2l "alice", s2l "admin"⟩]
    (by decide) (by decide) (by decide) (by decide)

/-- Counterexample to C5 as frozen: the local account named `""` with a
`g` row binding `""` to the default role appears twice among the
resolved members (once explicit, once implicit), because its binding is
dropped by `GetPolicyGrants` before the implicit-membership test. -/
theorem C5_counterexample :
    grantsForDefaultRole (s2l "g,,role:readonly\n") [([] : List Char)]
      (s2l "readonly") = .ok [[], []] := by decide

lemma normNL_no_cr : ∀ (p rest : List Char), '\r' ∉ p →
    normNL (p ++ rest) = p ++ normNL rest := by
  intro p
  induction p with
  | nil => intro rest _; rfl
  | cons c p ih =>
    intro rest h
    have hc : c ≠ '\r' := fun hc => h (hc ▸ List.mem_cons_self _ _)
    have hp : '\r' ∉ p := fun hm => h (List.mem_cons_of_mem _ hm)
    rw [List.cons_append]
    cases hpr : p ++ rest with
    | nil =>
      rcases List.append_eq_nil.mp hpr with ⟨rfl, rfl⟩
      simp [normNL]
    | cons c2 t =>
      have step : normNL (c :: c2 :: t) = c :: normNL (c2 :: t) := by
        simp only [normNL]
        rw [if_neg (fun hand => hc hand.1)]
      rw [step, ← hpr, ih rest hp]
      exact (List.cons_append _ _ _).symm

lemma dropTrailCR_append_nl (p q : List Char) :
    dropTrailCR ((p ++ ['\n']) ++ q) = (p ++ ['\n']) ++ dropTrailCR q := by
  cases q with
  | nil =>
    rw [List.append_nil]
    have h1 : dropTrailCR ([] : List Char) = [] := rfl
    rw [h1, List.append_nil]
    apply dropTrailCR_eq_self
    rw [List.getLast?_concat]
    simp
  | cons c t =>
    have hne : (c :: t : List Char) ≠ [] := by simp
    have hl : ((p ++ ['\n']) ++ (c :: t)).getLast? = (c :: t).getLast? :=
      List.getLast?_append_of_ne_nil _ hne
    by_cases hcr : ((c :: t) : List Char).getLast? = some '\r'
    · rw [dropTrailCR, if_pos (hl.trans hcr), dropTrailCR, if_pos hcr]
      exact List.dropLast_append_of_ne_nil _ hne
    · rw [dropTrailCR, if_neg (fun hx => hcr (hl.symm.trans hx)),
        dropTrailCR, if_neg hcr]

lemma csvReadAll_comment_cons (body doc : List Char)
    (hn : '\n' ∉ body) (hr : '\r' ∉ body) :
    csvReadAll ('#' :: body ++ '\n' :: doc) = csvReadAll doc := by
  have hp : '\r' ∉ ('#' :: body ++ ['\n']) := by
    intro hm
    rcases List.mem_append.mp hm with hm | hm
    · rcases List.mem_cons.mp hm with hm | hm
      · exact absurd hm.symm (by decide)
      · exact hr hm
    · rcases List.mem_singleton.mp hm with hm
      exact absurd hm (by decide)
  have e1 : '#' :: body ++ '\n' :: doc = ('#' :: body ++ ['\n']) ++ doc := by
    simp
  rw [csvReadAll, e1, normNL_no_cr _ _ hp,
    dropTrailCR_append_nl ('#' :: body) (normNL doc)]
  have e2 : ('#' :: body ++ ['\n']) ++ dropTrailCR (normNL doc) =
      '#' :: (body ++ '\n' :: dropTrailCR (normNL doc)) := by simp
  rw [e2, lineStart_comment_step, skipLine_append body hn, csvReadAll]

/-- C7.  As frozen, the claim is false: the mutation path re-serializes
only the parsed records, and the CSV reader (`Comment = '#'`) drops
comment lines entirely, so an applied grant or revoke erases every
comment line from the written-back document.  Amended claim, as proved
here: comment lines are invisible to the mutations rather than
preserved — prepending a comment line to the document changes neither
the parse, nor the result of an applied grant, nor the result of an
applied revoke (and when the outcome performs no write —
`AlreadyExists` / `AlreadyRevoked` — the untouched document, comments
included, is returned). -/
theorem C7_comment_insensitivity_amended (body doc u r : List Char)
    (hn : '\n' ∉ body) (hr : '\r' ∉ body) :
    csvReadAll ('#' :: body ++ '\n' :: doc) = csvReadAll doc ∧
    (∀ d, updateUserRole doc u r = .ok (.applied, d) →
      updateUserRole ('#' :: body ++ '\n' :: doc) u r = .ok (.applied, d)) ∧
    (∀ d, removeUserRole doc u r = .ok (.applied, d) →
      removeUserRole ('#' :: body ++ '\n' :: doc) u r = .ok (.applied, d)) := by
  have hEq := csvReadAll_comment_cons body doc hn hr
  refine ⟨hEq, ?_, ?_⟩
  · intro d hd
    rw [updateUserRole, hEq]
    rw [updateUserRole] at hd
    cases hp : csvReadAll doc with
    | error e => rw [hp] at hd; exact absurd hd (by simp)
    | ok records =>
      rw [hp] at hd
      by_cases hany : records.any (matchGrantRec u (withRolePfx r))
      · simp only [hany, if_true] at hd
        exact absurd (congrArg Prod.fst (Except.ok.inj hd)) (by simp)
      · simp only [Bool.not_eq_true] at hany
        simp only [hany, Bool.false_eq_true, if_false] at hd ⊢
        exact hd
  · intro d hd
    rw [removeUserRole, hEq]
    rw [removeUserRole] at hd
    cases hp : csvReadAll doc with
    | error e => rw [hp] at hd; exact absurd hd (by simp)
    | ok records =>
      rw [hp] at hd
      by_cases hany : (removeLoop u r records).2
      · simp only [hany, if_true] at hd ⊢
        exact hd
      · simp only [Bool.not_eq_true] at hany
        simp only [hany, Bool.false_eq_true, if_false] at hd
        exact absurd (congrArg Prod.fst (Except.ok.inj hd)) (by simp)

/-- Witness for C7 at a concrete input: the comment line `# keep` in
front of `g,bob,role:dev` does not change the parse. -/
theorem C7_witness :
    csvReadAll ('#' :: s2l " keep" ++ '\n' :: s2l "g,bob,role:dev\n") =
      csvReadAll (s2l "g,bob,role:dev\n") :=
  (C7_comment_insensitivity_amended (s2l " keep") (s2l "g,bob,role:dev\n")
    (s2l "alice") (s2l "admin") (by decide) (by decide)).1

/-- Counterexample to C7 as frozen: a document holding the comment line
`# keep` loses it on an applied grant, and on an applied revoke the
written-back document is empty — the comment is not preserved. -/
theorem C7_counterexample :
    updateUserRole (s2l "# keep\ng,bob,role:dev\n") (s2l "alice")
      (s2l "admin") =
      .ok (.applied, s2l "g,bob,role:dev\ng,alice,role:admin\n") ∧
    removeUserRole (s2l "# keep\ng,bob,role:dev\n") (s2l "bob")
      (s2l "dev") = .ok (.applied, []) := by decide

/-- C8.  Confirmed: whenever the CSV reader succeeds on the document,
`ParseArgoCDPolicyCSV` succeeds as well, returning exactly the bindings
and definitions extracted row by row — and any record that is not a
`g` row with at least three fields contributes no binding, while any
record that is not a `p` row with at least four fields contributes no
definition (malformed and unknown-kind rows are skipped, never fatal);
the only error source is the reader itself. -/
theorem C8_malformed_rows_skipped (csv : List Char)
    (recs : List (List (List Char)))
    (hdoc : csvReadAll csv = .ok recs) :
    parseArgoCDPolicyCSV csv =
      .ok (recs.filterMap rowBinding, recs.filterMap rowPolicy) ∧
    (∀ rec ∈ recs,
      (¬ (3 ≤ rec.length ∧ (rec.map goTrimSpace).head? = some gTok) →
        rowBinding rec = none) ∧
      (¬ (4 ≤ rec.length ∧ (rec.map goTrimSpace).head? = some pTok) →
        rowPolicy rec = none)) := by
  constructor
  · rw [parseArgoCDPolicyCSV, hdoc]
    exact congrArg Except.ok (collectPolicies_eq recs)
  · intro rec _
    constructor
    · intro h
      cases rec with
      | nil => rfl
      | cons a rest =>
        cases rest with
        | nil => rfl
        | cons b rest2 =>
          cases rest2 with
          | nil => rfl
          | cons c rest3 =>
            have ha : goTrimSpace a ≠ gTok := by
              intro hx
              exact h ⟨by simp, by simp [hx]⟩
            simp [rowBinding, ha]
    · intro h
      cases rec with
      | nil => rfl
      | cons a rest =>
        cases rest with
        | nil => rfl
        | cons b rest2 =>
          cases rest2 with
          | nil => rfl
          | cons c rest3 =>
            cases rest3 with
            | nil => rfl
            | cons e rest4 =>
              have ha : goTrimSpace a ≠ pTok := by
                intro hx
                exact h ⟨by simp, by simp [hx]⟩
              simp [rowPolicy, ha]

/-- Witness for C8 at a concrete input: a document mixing a short `g`
row, a short `p` row, an unknown-kind row, and well-formed rows parses
without error and keeps only the well-formed facts. -/
theorem C8_witness :
    parseArgoCDPolicyCSV (s2l "g,alice\np,a,b\nx,y,z\ng,bob,role:dev\np,role:dev,applications,get\n") =
      .ok ([[s2l "g", s2l "alice"], [s2l "p", s2l "a", s2l "b"],
        [s2l "x", s2l "y", s2l "z"], [s2l "g", s2l "bob", s2l "role:dev"],
        [s2l "p", s2l "role:dev", s2l "applications", s2l "get"]].filterMap rowBinding,
        [[s2l "g", s2l "alice"], [s2l "p", s2l "a", s2l "b"],
        [s2l "x", s2l "y", s2l "z"], [s2l "g", s2l "bob", s2l "role:dev"],
        [s2l "p", s2l "role:dev", s2l "applications", s2l "get"]].filterMap rowPolicy) ∧
    (∀ rec ∈ [[s2l "g", s2l "alice"], [s2l "p", s2l "a", s2l "b"],
        [s2l "x", s2l "y", s2l "z"], [s2l "g", s2l "bob", s2l "role:dev"],
        [s2l "p", s2l "role:dev", s2l "applications", s2l "get"]],
      (¬ (3 ≤ rec.length ∧ (rec.map goTrimSpace).head? = some gTok) →
        rowBinding rec = none) ∧
      (¬ (4 ≤ rec.length ∧ (rec.map goTrimSpace).head? = some pTok) →
        rowPolicy rec = none)) :=
  C8_malformed_rows_skipped
    (s2l "g,alice\np,a,b\nx,y,z\ng,bob,role:dev\np,role:dev,applications,get\n")
    [[s2l "g", s2l "alice"], [s2l "p", s2l "a", s2l "b"],
      [s2l "x", s2l "y", s2l "z"], [s2l "g", s2l "bob", s2l "role:dev"],
      [s2l "p", s2l "role:dev", s2l "applications", s2l "get"]]
    (by decide)

lemma goTrimPfx_add (p s : List Char) (h : p.isPrefixOf s = true) :
    p ++ goTrimPfx p s = s := by
  rw [goTrimPfx, if_pos h]
  rcases List.isPrefixOf_iff_prefix.mp h with ⟨t, rfl⟩
  rw [List.drop_left]

lemma goTrimPfx_id (p s : List Char) (h : p.isPrefixOf s = false) :
    goTrimPfx p s = s := by
  rw [goTrimPfx, if_neg (by simp [h])]

lemma withRolePfx_isPrefixOf (r : List Char) :
    rolePfx.isPrefixOf (withRolePfx r) = true := by
  rw [withRolePfx]
  by_cases h : rolePfx.isPrefixOf r
  · rw [if_pos h]; exact h
  · rw [if_neg h]
    exact List.isPrefixOf_iff_prefix.mpr ⟨r, rfl⟩

/-- C9.  Confirmed: every binding fact and every permission fact built
by the parser stores the trimmed role field with one leading `role:`
prefix removed (the raw field is recovered by re-adding the prefix if
it was present, and is stored unchanged otherwise), and the row a grant
serializes back always carries the `role:` prefix on its role field —
`withRolePfx r` begins with `role:` whether the caller passed the bare
or the prefixed name, and the applied grant appends exactly the row
`[g, subject, withRolePfx r]`. -/
theorem C9_role_prefix_normalization (csv u r : List Char)
    (recs : List (List (List Char))) (bs : List PolicyBinding)
    (ps : List PolicyDefinition)
    (hdoc : csvReadAll csv = .ok recs)
    (hps : parseArgoCDPolicyCSV csv = .ok (bs, ps)) :
    (∀ b ∈ bs, ∃ rec ∈ recs, ∃ raw tl,
      rec.map goTrimSpace = gTok :: b.subject :: raw :: tl ∧
      b.role = goTrimPfx rolePfx raw ∧
      (rolePfx.isPrefixOf raw = true → rolePfx ++ b.role = raw) ∧
      (rolePfx.isPrefixOf raw = false → b.role = raw)) ∧
    (∀ pd ∈ ps, ∃ rec ∈ recs, ∃ raw tl,
      rec.map goTrimSpace = pTok :: raw :: pd.resource :: pd.action :: tl ∧
      pd.role = goTrimPfx rolePfx raw ∧
      (rolePfx.isPrefixOf raw = true → rolePfx ++ pd.role = raw) ∧
      (rolePfx.isPrefixOf raw = false → pd.role = raw)) ∧
    rolePfx.isPrefixOf (withRolePfx r) = true ∧
    (withRolePfx r = r ∨ withRolePfx r = rolePfx ++ r) ∧
    (∀ d, updateUserRole csv u r = .ok (.applied, d) →
      d = csvWriteAll (recs ++ [[gTok, u, withRolePfx r]])) := by
  have hcoll : parseArgoCDPolicyCSV csv =
      .ok (recs.filterMap rowBinding, recs.filterMap rowPolicy) := by
    rw [parseArgoCDPolicyCSV, hdoc]
    exact congrArg Except.ok (collectPolicies_eq recs)
  have hbs : bs = recs.filterMap rowBinding := by
    rw [hps] at hcoll
    exact (congrArg Prod.fst (Except.ok.inj hcoll))
  have hps2 : ps = recs.filterMap rowPolicy := by
    rw [hps] at hcoll
    exact (congrArg Prod.snd (Except.ok.inj hcoll))
  refine ⟨?_, ?_, withRolePfx_isPrefixOf r, ?_, ?_⟩
  · intro b hb
    rw [hbs] at hb
    rcases List.mem_filterMap.mp hb with ⟨rec, hrec, hrow⟩
    rw [rowBinding] at hrow
    by_cases hlen : rec.length = 0
    · rw [if_pos hlen] at hrow; exact absurd hrow (by simp)
    · rw [if_neg hlen] at hrow
      cases hm : rec.map goTrimSpace with
      | nil => rw [hm] at hrow; exact absurd hrow (by simp)
      | cons f0 tl1 =>
        cases tl1 with
        | nil => rw [hm] at hrow; exact absurd hrow (by simp)
        | cons f1 tl2 =>
          cases tl2 with
          | nil => rw [hm] at hrow; exact absurd hrow (by simp)
          | cons f2 tl3 =>
            rw [hm] at hrow
            by_cases hg : f0 = gTok
            · simp only [hg, if_pos rfl] at hrow
              have hb2 := Option.some.inj hrow
              refine ⟨rec, hrec, f2, tl3, ?_, ?_, ?_, ?_⟩
              · rw [hm, hg, ← hb2]
              · rw [← hb2]
              · intro hpref
                rw [← hb2]
                exact goTrimPfx_add _ _ hpref
              · intro hpref
                rw [← hb2]
                exact goTrimPfx_id _ _ hpref
            · simp only [if_neg hg] at hrow
              exact absurd hrow (by simp)
  · intro pd hpd
    rw [hps2] at hpd
    rcases List.mem_filterMap.mp hpd with ⟨rec, hrec, hrow⟩
    rw [rowPolicy] at hrow
    by_cases hlen : rec.length = 0
    · rw [if_pos hlen] at hrow; exact absurd hrow (by simp)
    · rw [if_neg hlen] at hrow
      cases hm : rec.map goTrimSpace with
      | nil => rw [hm] at hrow; exact absurd hrow (by simp)
      | cons f0 tl1 =>
        cases tl1 with
        | nil => rw [hm] at hrow; exact absurd hrow (by simp)
        | cons f1 tl2 =>
          cases tl2 with
          | nil => rw [hm] at hrow; exact absurd hrow (by simp)
          | cons f2 tl3 =>
            cases tl3 with
            | nil => rw [hm] at hrow; exact absurd hrow (by simp)
            | cons f3 tl4 =>
              rw [hm] at hrow
              by_cases hp : f0 = pTok
              · simp only [hp, if_pos rfl] at hrow
                have hb2 := Option.some.inj hrow
                refine ⟨rec, hrec, f1, tl4, ?_, ?_, ?_, ?_⟩
                · rw [hm, hp, ← hb2]
                · rw [← hb2]
                · intro hpref
                  rw [← hb2]
                  exact goTrimPfx_add _ _ hpref
                · intro hpref
                  rw [← hb2]
                  exact goTrimPfx_id _ _ hpref
              · simp only [if_neg hp] at hrow
                exact absurd hrow (by simp)
  · rw [withRolePfx]
    by_cases h : rolePfx.isPrefixOf r
    · rw [if_pos h]; exact Or.inl rfl
    · rw [if_neg h]; exact Or.inr rfl
  · intro d hd
    rw [updateUserRole, hdoc] at hd
    by_cases hany : recs.any (matchGrantRec u (withRolePfx r))
    · simp only [hany, if_true] at hd
      exact absurd (congrArg Prod.fst (Except.ok.inj hd)) (by simp)
    · simp only [Bool.not_eq_true] at hany
      simp only [hany, Bool.false_eq_true, if_false] at hd
      exact (congrArg Prod.snd (Except.ok.inj hd)).symm

/-- Witness for C9 at a concrete input: one `g` row and one `p` row,
both with the prefixed role field, and a grant with a bare role name. -/
theorem C9_witness :
    (∀ b ∈ [(⟨s2l "alice", s2l "admin"⟩ : PolicyBinding)],
      ∃ rec ∈ [[s2l "g", s2l "alice", s2l "role:admin"],
        [s2l "p", s2l "role:admin", s2l "applications", s2l "get"]],
      ∃ raw tl,
        rec.map goTrimSpace = gTok :: b.subject :: raw :: tl ∧
        b.role = goTrimPfx rolePfx raw ∧
        (rolePfx.isPrefixOf raw = true → rolePfx ++ b.role = raw) ∧
        (rolePfx.isPrefixOf raw = false → b.role = raw)) ∧
    (∀ pd ∈ [(⟨s2l "admin", s2l "applications", s2l "get"⟩ : PolicyDefinition)],
      ∃ rec ∈ [[s2l "g", s2l "alice", s2l "role:admin"],
        [s2l "p", s2l "role:admin", s2l "applications", s2l "get"]],
      ∃ raw tl,
        rec.map goTrimSpace = pTok :: raw :: pd.resource :: pd.action :: tl ∧
        pd.role = goTrimPfx rolePfx raw ∧
        (rolePfx.isPrefixOf raw = true → rolePfx ++ pd.role = raw) ∧
        (rolePfx.isPrefixOf raw = false → pd.role = raw)) ∧
    rolePfx.isPrefixOf (withRolePfx (s2l "dev")) = true ∧
    (withRolePfx (s2l "dev") = s2l "dev" ∨
      withRolePfx (s2l "dev") = rolePfx ++ s2l "dev") ∧
    (∀ d, updateUserRole
        (s2l "g,alice,role:admin\np,role:admin,applications,get\n")
        (s2l "bob") (s2l "dev") = .ok (.applied, d) →
      d = csvWriteAll ([[s2l "g", s2l "alice", s2l "role:admin"],
        [s2l "p", s2l "role:admin", s2l "applications", s2l "get"]] ++
        [[gTok, s2l "bob", withRolePfx (s2l "dev")]])) :=
  C9_role_prefix_normalization
    (s2l "g,alice,role:admin\np,role:admin,applications,get\n")
    (s2l "bob") (s2l "dev")
    [[s2l "g", s2l "alice", s2l "role:admin"],
      [s2l "p", s2l "role:admin", s2l "applications", s2l "get"]]
    [⟨s2l "alice", s2l "admin"⟩]
    [⟨s2l "admin", s2l "applications", s2l "get"⟩]
    (by decide) (by decide)

/-- C10.  Confirmed: every policy grant surfaced by `GetPolicyGrants`
has a non-empty subject and a non-empty role — bindings whose trimmed,
prefix-stripped subject or role field is empty are parsed but filtered
out before becoming grants. -/
theorem C10_grants_nonempty (doc : List Char) (pgs : List PolicyGrant)
    (h : getPolicyGrants doc = .ok pgs) :
    ∀ pg ∈ pgs, pg.subject ≠ [] ∧ pg.role ≠ [] := by
  intro pg hpg
  rw [getPolicyGrants] at h
  by_cases he : (goTrimSpace doc).isEmpty
  · rw [if_pos he] at h
    rw [← Except.ok.inj h] at hpg
    exact absurd hpg (List.not_mem_nil pg)
  · rw [if_neg he] at h
    cases hp : parseArgoCDPolicyCSV doc with
    | error e => rw [hp] at h; exact absurd h (by simp)
    | ok bsps =>
      obtain ⟨bs, ps⟩ := bsps
      rw [hp] at h
      rw [← Except.ok.inj h] at hpg
      rcases List.mem_map.mp hpg with ⟨b, hbf, rfl⟩
      rcases List.mem_filter.mp hbf with ⟨-, hcond⟩
      simp only [Bool.and_eq_true] at hcond
      rcases hcond with ⟨h1, h2⟩
      constructor
      · intro hnil
        rw [Bool.not_eq_true'] at h1
        have hnil' : b.subject = [] := hnil
        rw [hnil'] at h1
        exact absurd h1 (by simp)
      · intro hnil
        rw [Bool.not_eq_true'] at h2
        have hnil' : b.role = [] := hnil
        rw [hnil'] at h2
        exact absurd h2 (by simp)

/-- Witness for C10 at a concrete input: a document with an
empty-subject row and an empty-role row yields only the fully-named
grant. -/
theorem C10_witness :
    (⟨s2l "alice", s2l "admin"⟩ : PolicyGrant).subject ≠ [] ∧
    (⟨s2l "alice", s2l "admin"⟩ : PolicyGrant).role ≠ [] :=
  C10_grants_nonempty (s2l "g,,role:x\ng,bob,role:\ng,alice,role:admin\n")
    [⟨s2l "alice", s2l "admin"⟩] (by decide)
    ⟨s2l "alice", s2l "admin"⟩ (List.mem_singleton.mpr rfl)

/-- Concatenation of `\n`-terminated lines, the byte-level layout of a
well-formed `policy.csv` file. -/
def joinNL (ls : List (List Char)) : List Char :=
  (ls.map (fun l => l ++ ['\n'])).flatten

/-- Join fields with commas, the byte-level layout of an unquoted CSV
row. -/
def commaJoin : List (List Char) → List Char
  | [] => []
  | [f] => f
  | f :: fs => f ++ ',' :: commaJoin fs

/-- Split a line at commas (quote-free reading). -/
def splitComma : List Char → List (List Char)
  | [] => [[]]
  | c :: t =>
    if c = ',' then [] :: splitComma t
    else
      match splitComma t with
      | [] => [[c]]
      | f :: fs => (c :: f) :: fs

/-- Field extraction of the CSV reader restricted to one quote-free
line: `none` is the field-start state (leading spaces skipped, Go
`TrimLeadingSpace`), `some acc` the inside-unquoted-field state. -/
def fieldsRun : Option (List Char) → List Char → List (List Char)
  | none, [] => [[]]
  | some acc, [] => [acc]
  | none, c :: t =>
    if c = ',' then [] :: fieldsRun none t
    else if isGoSpace c then fieldsRun none t
    else fieldsRun (some [c]) t
  | some acc, c :: t =>
    if c = ',' then acc :: fieldsRun none t
    else fieldsRun (some (acc ++ [c])) t

/-- The record the CSV reader produces from one quote-free line:
comments and blank lines produce none, any other line its fields. -/
def lineRec (l : List Char) : Option (List (List Char)) :=
  match l with
  | [] => none
  | c :: t =>
    if c = '#' then none
    else if c = ',' then some ([] :: fieldsRun none t)
    else if isGoSpace c then some (fieldsRun none t)
    else some (fieldsRun (some [c]) t)

/-- The policy binding a single quote-free line contributes. -/
def bindOf (l : List Char) : Option PolicyBinding :=
  (lineRec l).bind rowBinding

lemma splitComma_ne_nil : ∀ l : List Char, splitComma l ≠ [] := by
  intro l
  cases l with
  | nil => simp [splitComma]
  | cons c t =>
    rw [splitComma]
    by_cases hc : c = ','
    · simp [hc]
    · rw [if_neg hc]
      cases h : splitComma t with
      | nil => simp
      | cons f fs => simp

lemma commaJoin_one (f : List Char) : commaJoin [f] = f := rfl

lemma commaJoin_cons2 (a b : List Char) (fs : List (List Char)) :
    commaJoin (a :: b :: fs) = a ++ ',' :: commaJoin (b :: fs) := rfl

lemma commaJoin_splitComma : ∀ l : List Char, commaJoin (splitComma l) = l := by
  intro l
  induction l with
  | nil => rfl
  | cons c t ih =>
    rw [splitComma]
    by_cases hc : c = ','
    · rw [if_pos hc]
      cases h : splitComma t with
      | nil => exact absurd h (splitComma_ne_nil t)
      | cons f fs =>
        rw [h] at ih
        subst hc
        rw [commaJoin_cons2, ih, List.nil_append]
    · rw [if_neg hc]
      cases h : splitComma t with
      | nil => exact absurd h (splitComma_ne_nil t)
      | cons f fs =>
        rw [h] at ih
        cases fs with
        | nil =>
          rw [commaJoin_one] at ih
          rw [commaJoin_one, ih]
        | cons g fs2 =>
          rw [commaJoin_cons2] at ih
          rw [commaJoin_cons2, List.cons_append, ih]

lemma mem_splitComma_no_comma :
    ∀ l : List Char, ∀ f ∈ splitComma l, ',' ∉ f := by
  intro l
  induction l with
  | nil =>
    intro f hf
    rw [splitComma] at hf
    rcases List.mem_singleton.mp hf with rfl
    exact List.not_mem_nil ','
  | cons c t ih =>
    intro f hf
    rw [splitComma] at hf
    by_cases hc : c = ','
    · rw [if_pos hc] at hf
      rcases List.mem_cons.mp hf with rfl | hf
      · exact List.not_mem_nil ','
      · exact ih f hf
    · rw [if_neg hc] at hf
      cases h : splitComma t with
      | nil => exact absurd h (splitComma_ne_nil t)
      | cons g fs =>
        rw [h] at hf
        rcases List.mem_cons.mp hf with rfl | hf
        · intro hm
          rcases List.mem_cons.mp hm with hm | hm
          · exact hc hm.symm
          · exact ih g (h ▸ List.mem_cons_self g fs) hm
        · exact ih f (h ▸ List.mem_cons_of_mem g hf)

lemma fieldsRun_noComma : ∀ (f acc : List Char), ',' ∉ f →
    fieldsRun (some acc) f = [acc ++ f] := by
  intro f
  induction f with
  | nil => intro acc _; simp [fieldsRun]
  | cons c f' ih =>
    intro acc h
    have hc : c ≠ ',' := fun hx => h (hx ▸ List.mem_cons_self _ _)
    have hf : ',' ∉ f' := fun hm => h (List.mem_cons_of_mem _ hm)
    rw [fieldsRun, if_neg hc, ih (acc ++ [c]) hf]
    simp

lemma fieldsRun_field : ∀ (f acc rest : List Char), ',' ∉ f →
    fieldsRun (some acc) (f ++ ',' :: rest) =
      (acc ++ f) :: fieldsRun none rest := by
  intro f
  induction f with
  | nil => intro acc rest _; simp [fieldsRun]
  | cons c f' ih =>
    intro acc rest h
    have hc : c ≠ ',' := fun hx => h (hx ▸ List.mem_cons_self _ _)
    have hf : ',' ∉ f' := fun hm => h (List.mem_cons_of_mem _ hm)
    rw [List.cons_append, fieldsRun, if_neg hc, ih (acc ++ [c]) rest hf]
    simp

lemma goTrimSpace_head {s : List Char} (h : goTrimSpace s = s) :
    ∀ c, s.head? = some c → isGoSpace c = false := by
  intro c hc
  by_contra hsp
  rw [Bool.not_eq_false] at hsp
  cases s with
  | nil => exact absurd hc (by simp)
  | cons a t =>
    have ha : a = c := by simpa using hc
    have hlen : (goTrimSpace (a :: t)).length ≤ t.length := by
      rw [goTrimSpace, List.dropWhile_cons, if_pos (ha ▸ hsp)]
      calc ((t.dropWhile isGoSpace).reverse.dropWhile isGoSpace).reverse.length
          = ((t.dropWhile isGoSpace).reverse.dropWhile isGoSpace).length := by
            rw [List.length_reverse]
        _ ≤ (t.dropWhile isGoSpace).reverse.length :=
            (List.dropWhile_sublist _).length_le
        _ = (t.dropWhile isGoSpace).length := by rw [List.length_reverse]
        _ ≤ t.length := (List.dropWhile_sublist _).length_le
    rw [h] at hlen
    simp at hlen

lemma fieldsRun_none_field (f rest : List Char) (hf : ',' ∉ f)
    (hh : ∀ c, f.head? = some c → isGoSpace c = false) :
    fieldsRun none (f ++ ',' :: rest) = f :: fieldsRun none rest := by
  cases f with
  | nil => simp [fieldsRun]
  | cons c f' =>
    have hc : c ≠ ',' := fun hx => hf (hx ▸ List.mem_cons_self _ _)
    have hf' : ',' ∉ f' := fun hm => hf (List.mem_cons_of_mem _ hm)
    rw [List.cons_append, fieldsRun, if_neg hc,
      if_neg (by rw [hh c (by simp)]; simp),
      fieldsRun_field f' [c] rest hf']
    rfl

lemma fieldsRun_none_last (f : List Char) (hf : ',' ∉ f)
    (hh : ∀ c, f.head? = some c → isGoSpace c = false) :
    fieldsRun none f = [f] := by
  cases f with
  | nil => rfl
  | cons c f' =>
    have hc : c ≠ ',' := fun hx => hf (hx ▸ List.mem_cons_self _ _)
    have hf' : ',' ∉ f' := fun hm => hf (List.mem_cons_of_mem _ hm)
    rw [fieldsRun, if_neg hc, if_neg (by rw [hh c (by simp)]; simp),
      fieldsRun_noComma f' [c] hf']
    rfl

lemma fieldsRun_commaJoin : ∀ (fs : List (List Char)), fs ≠ [] →
    (∀ f ∈ fs, ',' ∉ f ∧ goTrimSpace f = f) →
    fieldsRun none (commaJoin fs) = fs := by
  intro fs
  induction fs with
  | nil => intro h _; exact absurd rfl h
  | cons f fs' ih =>
    intro _ h
    rcases h f (List.mem_cons_self _ _) with ⟨hfc, hft⟩
    cases fs' with
    | nil =>
      rw [commaJoin_one]
      exact fieldsRun_none_last f hfc (goTrimSpace_head hft)
    | cons g fs2 =>
      rw [commaJoin_cons2,
        fieldsRun_none_field f _ hfc (goTrimSpace_head hft),
        ih (by simp) (fun x hx => h x (List.mem_cons_of_mem _ hx))]

lemma csvRun_line_fields : ∀ (l : List Char), '"' ∉ l → '\n' ∉ l →
    (∀ (rec : List (List Char)) (t : List Char),
      csvRun (.fieldStart rec) (l ++ '\n' :: t) =
        (csvRun .lineStart t).map (fun rs => (rec ++ fieldsRun none l) :: rs)) ∧
    (∀ (rec : List (List Char)) (acc t : List Char), '"' ∉ acc →
      csvRun (.inUnquoted rec acc) (l ++ '\n' :: t) =
        (csvRun .lineStart t).map
          (fun rs => (rec ++ fieldsRun (some acc) l) :: rs)) := by
  intro l
  induction l with
  | nil =>
    intro _ _
    constructor
    · intro rec t
      rw [List.nil_append, fieldStart_nl_step]
      rfl
    · intro rec acc t ha
      rw [List.nil_append, inUnq_nl_step rec acc t ha]
      rfl
  | cons c l' ih =>
    intro hq hn
    have hcq : c ≠ '"' := fun hx => hq (hx ▸ List.mem_cons_self _ _)
    have hcn : c ≠ '\n' := fun hx => hn (hx ▸ List.mem_cons_self _ _)
    have hq' : '"' ∉ l' := fun hm => hq (List.mem_cons_of_mem _ hm)
    have hn' : '\n' ∉ l' := fun hm => hn (List.mem_cons_of_mem _ hm)
    rcases ih hq' hn' with ⟨ihA, ihB⟩
    constructor
    · intro rec t
      rw [List.cons_append]
      by_cases hc : c = ','
      · subst hc
        rw [fieldStart_comma_step, ihA]
        rw [fieldsRun]
        simp
      · by_cases hs : isGoSpace c
        · rw [fieldStart_space_step rec c _ hcn hc hcq hs, ihA]
          rw [fieldsRun, if_neg hc, if_pos hs]
        · rw [fieldStart_data_step rec c _ hcn hc hcq (by simpa using hs),
            ihB rec [c] t (fun hm => hcq (List.mem_singleton.mp hm).symm)]
          rw [fieldsRun, if_neg hc, if_neg hs]
    · intro rec acc t ha
      rw [List.cons_append]
      by_cases hc : c = ','
      · subst hc
        rw [inUnq_comma_step rec acc _ ha, ihA]
        rw [fieldsRun]
        simp
      · rw [inUnq_data_step rec acc c _ hcn hc,
          ihB rec (acc ++ [c]) t (not_mem_append_singleton ha hcq)]
        rw [fieldsRun, if_neg hc]

lemma lineStart_line (l : List Char) (hq : '"' ∉ l) (hn : '\n' ∉ l) :
    ∀ t, csvRun .lineStart (l ++ '\n' :: t) =
      match lineRec l with
      | none => csvRun .lineStart t
      | some r => (csvRun .lineStart t).map (fun rs => r :: rs) := by
  intro t
  cases l with
  | nil =>
    rw [lineRec]
    simp [csvRun]
  | cons c l' =>
    have hcq : c ≠ '"' := fun hx => hq (hx ▸ List.mem_cons_self _ _)
    have hcn : c ≠ '\n' := fun hx => hn (hx ▸ List.mem_cons_self _ _)
    have hq' : '"' ∉ l' := fun hm => hq (List.mem_cons_of_mem _ hm)
    have hn' : '\n' ∉ l' := fun hm => hn (List.mem_cons_of_mem _ hm)
    rcases csvRun_line_fields l' hq' hn' with ⟨ihA, ihB⟩
    rw [List.cons_append, lineRec]
    by_cases hh : c = '#'
    · subst hh
      rw [lineStart_comment_step, skipLine_append l' hn' t, if_pos rfl]
    · rw [if_neg hh]
      by_cases hc : c = ','
      · subst hc
        rw [if_pos rfl]
        have e1 : csvRun CsvSt.lineStart (',' :: (l' ++ '\n' :: t)) =
            csvRun (.fieldStart [[]]) (l' ++ '\n' :: t) := by
          simp [csvRun]
        rw [e1, ihA]
        rfl
      · rw [if_neg hc]
        by_cases hs : isGoSpace c
        · rw [if_pos hs]
          have e1 : csvRun CsvSt.lineStart (c :: (l' ++ '\n' :: t)) =
              csvRun (.fieldStart []) (l' ++ '\n' :: t) := by
            simp [csvRun, hh, hcn, hc, hcq, hs]
          rw [e1, ihA]
          rfl
        · rw [if_neg hs]
          have e1 : csvRun CsvSt.lineStart (c :: (l' ++ '\n' :: t)) =
              csvRun (.inUnquoted [] [c]) (l' ++ '\n' :: t) := by
            simp [csvRun, hh, hcn, hc, hcq, hs]
          rw [e1, ihB [] [c] t (fun hm => hcq (List.mem_singleton.mp hm).symm)]
          rfl

lemma joinNL_cons (l : List Char) (ls : List (List Char)) :
    joinNL (l :: ls) = l ++ '\n' :: joinNL ls := by
  simp [joinNL]

lemma csvRun_joinNL : ∀ (ls : List (List Char)),
    (∀ l ∈ ls, '"' ∉ l ∧ '\n' ∉ l) →
    csvRun .lineStart (joinNL ls) = .ok (ls.filterMap lineRec) := by
  intro ls
  induction ls with
  | nil => intro _; rfl
  | cons l ls' ih =>
    intro h
    rcases h l (List.mem_cons_self _ _) with ⟨hq, hn⟩
    rw [joinNL_cons, lineStart_line l hq hn (joinNL ls'),
      ih (fun x hx => h x (List.mem_cons_of_mem _ hx))]
    cases hr : lineRec l with
    | none => rw [List.filterMap_cons_none hr]
    | some r => rw [List.filterMap_cons_some hr]; rfl

lemma cr_not_mem_joinNL {ls : List (List Char)}
    (h : ∀ l ∈ ls, '\r' ∉ l) : '\r' ∉ joinNL ls := by
  intro hc
  rcases List.mem_flatten.mp hc with ⟨x, hx, hcx⟩
  rcases List.mem_map.mp hx with ⟨l, hl, rfl⟩
  rcases List.mem_append.mp hcx with hm | hm
  · exact h l hl hm
  · exact absurd (List.mem_singleton.mp hm) (by decide)

lemma csvReadAll_joinNL (ls : List (List Char))
    (h : ∀ l ∈ ls, '"' ∉ l ∧ '\n' ∉ l ∧ '\r' ∉ l) :
    csvReadAll (joinNL ls) = .ok (ls.filterMap lineRec) := by
  have hcr : '\r' ∉ joinNL ls := cr_not_mem_joinNL (fun l hl => (h l hl).2.2)
  have h1 : normNL (joinNL ls) = joinNL ls := by
    have h2 := normNL_no_cr (joinNL ls) [] hcr
    simpa [normNL] using h2
  have h3 : (joinNL ls).getLast? ≠ some '\r' := by
    intro hc
    obtain ⟨hne, he⟩ := List.mem_getLast?_eq_getLast (Option.mem_def.mpr hc)
    exact hcr (he ▸ List.getLast_mem hne)
  rw [csvReadAll, h1, dropTrailCR_eq_self h3]
  exact csvRun_joinNL ls (fun l hl => ⟨(h l hl).1, (h l hl).2.1⟩)

lemma goLinesAux_line : ∀ (l cur rest : List Char), '\n' ∉ l →
    goLinesAux cur (l ++ '\n' :: rest) =
      if rest.isEmpty then [cur ++ l]
      else (cur ++ l) :: goLinesAux [] rest := by
  intro l
  induction l with
  | nil =>
    intro cur rest _
    cases rest with
    | nil => simp [goLinesAux]
    | cons c t => simp [goLinesAux]
  | cons c l' ih =>
    intro cur rest h
    have hc : c ≠ '\n' := fun hx => h (hx ▸ List.mem_cons_self _ _)
    have hl : '\n' ∉ l' := fun hm => h (List.mem_cons_of_mem _ hm)
    rw [List.cons_append]
    have e1 : goLinesAux cur (c :: (l' ++ '\n' :: rest)) =
        goLinesAux (cur ++ [c]) (l' ++ '\n' :: rest) := by
      cases he : l' ++ '\n' :: rest with
      | nil => exact absurd he (by simp)
      | cons d t => simp [goLinesAux, hc, he]
    rw [e1, ih (cur ++ [c]) rest hl]
    simp

lemma goLines_cons_eq (s : List Char) (hs : s ≠ []) :
    goLines s = goLinesAux [] s := by
  cases s with
  | nil => exact absurd rfl hs
  | cons d t => rfl

lemma goLines_joinNL : ∀ (ls : List (List Char)), (∀ l ∈ ls, '\n' ∉ l) →
    goLines (joinNL ls) = ls := by
  intro ls
  induction ls with
  | nil => intro _; rfl
  | cons l ls' ih =>
    intro h
    rw [joinNL_cons, goLines_cons_eq _ (by simp),
      goLinesAux_line l [] (joinNL ls') (h l (List.mem_cons_self _ _))]
    cases ls' with
    | nil => simp [joinNL]
    | cons x xs =>
      have hne : joinNL (x :: xs) ≠ [] := by simp [joinNL_cons]
      rw [if_neg (by simpa using hne)]
      rw [← goLines_cons_eq _ hne, ih (fun y hy => h y (List.mem_cons_of_mem _ hy))]
      simp

lemma fieldsRun_ne_nil : ∀ (l : List Char) (st : Option (List Char)),
    fieldsRun st l ≠ [] := by
  intro l
  induction l with
  | nil =>
    intro st
    cases st with
    | none => simp [fieldsRun]
    | some acc => simp [fieldsRun]
  | cons c t ih =>
    intro st
    cases st with
    | none =>
      rw [fieldsRun]
      by_cases hc : c = ','
      · simp [hc]
      · rw [if_neg hc]
        by_cases hs : isGoSpace c
        · rw [if_pos hs]; exact ih none
        · rw [if_neg hs]; exact ih (some [c])
    | some acc =>
      rw [fieldsRun]
      by_cases hc : c = ','
      · simp [hc]
      · rw [if_neg hc]; exact ih (some (acc ++ [c]))

lemma lineRec_comment {l : List Char} (h : l.head? = some '#') :
    lineRec l = none := by
  cases l with
  | nil => exact absurd h (by simp)
  | cons c t =>
    have hc : c = '#' := by simpa using h
    rw [lineRec, if_pos hc]

lemma lineRec_canon (l : List Char) (hl : l ≠ [])
    (hh : l.head? ≠ some '#')
    (hc : ∀ f ∈ splitComma l, goTrimSpace f = f) :
    lineRec l = some (splitComma l) := by
  cases l with
  | nil => exact absurd rfl hl
  | cons c t =>
    have hch : c ≠ '#' := fun hx => hh (by simp [hx])
    have hround : commaJoin (splitComma t) = t := commaJoin_splitComma t
    rw [lineRec, if_neg hch]
    by_cases hcc : c = ','
    · rw [if_pos hcc, splitComma, if_pos hcc]
      have e : fieldsRun none t = splitComma t := by
        calc fieldsRun none t
            = fieldsRun none (commaJoin (splitComma t)) := by rw [hround]
          _ = splitComma t := by
              apply fieldsRun_commaJoin _ (splitComma_ne_nil t)
              intro f hf
              have hf' : f ∈ splitComma (c :: t) := by
                rw [splitComma, if_pos hcc]
                exact List.mem_cons_of_mem _ hf
              exact ⟨mem_splitComma_no_comma (c :: t) f hf', hc f hf'⟩
      rw [e]
    · rw [if_neg hcc]
      cases hsp : splitComma t with
      | nil => exact absurd hsp (splitComma_ne_nil t)
      | cons f fs =>
        have hsl : splitComma (c :: t) = (c :: f) :: fs := by
          rw [splitComma, if_neg hcc, hsp]
        have hmem0 : (c :: f) ∈ splitComma (c :: t) := by
          rw [hsl]; exact List.mem_cons_self _ _
        have hts : goTrimSpace (c :: f) = c :: f :=
          hc (c :: f) hmem0
        have hns : isGoSpace c = false :=
          goTrimSpace_head hts c (by simp)
        rw [if_neg (by rw [hns]; simp), hsl]
        have hfc : ',' ∉ c :: f := mem_splitComma_no_comma (c :: t) _ hmem0
        have hfc' : ',' ∉ f := fun hm => hfc (List.mem_cons_of_mem _ hm)
        cases fs with
        | nil =>
          have ht : t = f := by
            have := hround
            rw [hsp, commaJoin_one] at this
            exact this.symm
          rw [ht, fieldsRun_noComma f [c] hfc']
          rfl
        | cons g fs2 =>
          have ht : t = f ++ ',' :: commaJoin (g :: fs2) := by
            have := hround
            rw [hsp, commaJoin_cons2] at this
            exact this.symm
          rw [ht, fieldsRun_field f [c] _ hfc']
          have e2 : fieldsRun none (commaJoin (g :: fs2)) = g :: fs2 := by
            apply fieldsRun_commaJoin _ (by simp)
            intro x hx
            have hx' : x ∈ splitComma (c :: t) := by
              rw [hsl]
              exact List.mem_cons_of_mem _ hx
            exact ⟨mem_splitComma_no_comma (c :: t) x hx', hc x hx'⟩
          rw [e2]
          rfl

lemma bindOf_matched (u l : List Char) (hu : goTrimSpace u = u)
    (huc : ',' ∉ u)
    (hm : (gTok ++ [','] ++ u ++ [',']).isPrefixOf l = true) :
    ∃ b, bindOf l = some b ∧ b.subject = u := by
  rcases List.isPrefixOf_iff_prefix.mp hm with ⟨tail, htail⟩
  have hg : gTok = ['g'] := rfl
  have hL : l = 'g' :: ',' :: (u ++ ',' :: tail) := by
    rw [← htail, hg]
    simp
  have e1 : lineRec ('g' :: ',' :: (u ++ ',' :: tail)) =
      some (fieldsRun (some ['g']) (',' :: (u ++ ',' :: tail))) := by
    rw [lineRec, if_neg (by decide), if_neg (by decide),
      if_neg (by decide)]
  have e2 : fieldsRun (some ['g']) (',' :: (u ++ ',' :: tail)) =
      ['g'] :: fieldsRun none (u ++ ',' :: tail) := by
    rw [fieldsRun, if_pos rfl]
  have e3 : fieldsRun none (u ++ ',' :: tail) = u :: fieldsRun none tail :=
    fieldsRun_none_field u tail huc (goTrimSpace_head hu)
  cases hft : fieldsRun none tail with
  | nil => exact absurd hft (fieldsRun_ne_nil tail none)
  | cons f2 tl =>
    refine ⟨⟨u, goTrimPfx rolePfx (goTrimSpace f2)⟩, ?_, rfl⟩
    rw [bindOf, hL, e1, e2, e3, hft, Option.some_bind, rowBinding,
      if_neg (by simp)]
    simp only [List.map_cons]
    have hgh : goTrimSpace ['g'] = gTok := by decide
    simp only [hgh, eq_self_iff_true, if_true, hu]

lemma map_goTrimSpace_self {fs : List (List Char)}
    (h : ∀ f ∈ fs, goTrimSpace f = f) : fs.map goTrimSpace = fs := by
  induction fs with
  | nil => rfl
  | cons f fs' ih =>
    rw [List.map_cons, h f (List.mem_cons_self _ _),
      ih (fun x hx => h x (List.mem_cons_of_mem _ hx))]

lemma matched_of_bindOf (u l : List Char)
    (hcanon : l.head? = some '#' ∨ ∀ f ∈ splitComma l, goTrimSpace f = f)
    {b : PolicyBinding} (hb : bindOf l = some b) (hsubj : b.subject = u) :
    (gTok ++ [','] ++ u ++ [',']).isPrefixOf l = true := by
  rcases hcanon with hcom | hcanon
  · rw [bindOf, lineRec_comment hcom] at hb
    exact absurd hb (by simp)
  · by_cases hl : l = []
    · rw [bindOf, hl] at hb
      exact absurd hb (by simp [lineRec])
    · by_cases hh : l.head? = some '#'
      · rw [bindOf, lineRec_comment hh] at hb
        exact absurd hb (by simp)
      · rw [bindOf, lineRec_canon l hl hh hcanon, Option.some_bind] at hb
        have hmap : (splitComma l).map goTrimSpace = splitComma l :=
          map_goTrimSpace_self hcanon
        rw [rowBinding] at hb
        by_cases hlen : (splitComma l).length = 0
        · rw [if_pos hlen] at hb
          exact absurd hb (by simp)
        · rw [if_neg hlen, hmap] at hb
          cases hsp : splitComma l with
          | nil => exact absurd hsp (splitComma_ne_nil l)
          | cons f0 tl1 =>
            rw [hsp] at hb
            cases tl1 with
            | nil => exact absurd hb (by simp)
            | cons f1 tl2 =>
              cases tl2 with
              | nil => exact absurd hb (by simp)
              | cons f2 tl3 =>
                by_cases hg : f0 = gTok
                · simp only [hg, eq_self_iff_true, if_true] at hb
                  have hb2 := Option.some.inj hb
                  have hf1 : f1 = u := by
                    rw [← hsubj, ← hb2]
                  have hLe : l = commaJoin (gTok :: u :: f2 :: tl3) := by
                    rw [← hg, ← hf1, ← hsp, commaJoin_splitComma]
                  have hshape : commaJoin (gTok :: u :: f2 :: tl3) =
                      (gTok ++ [','] ++ u ++ [',']) ++ commaJoin (f2 :: tl3) := by
                    rw [commaJoin_cons2, commaJoin_cons2]
                    simp
                  apply List.isPrefixOf_iff_prefix.mpr
                  exact ⟨commaJoin (f2 :: tl3), by rw [hLe, hshape]⟩
                · simp only [if_neg hg] at hb
                  exact absurd hb (by simp)

lemma filterMap_filter_left {α : Type} (p : List Char → Bool)
    (f : List Char → Option α) :
    ∀ ls : List (List Char), (ls.filter p).filterMap f =
      ls.filterMap (fun x => if p x then f x else none) := by
  intro ls
  induction ls with
  | nil => rfl
  | cons l ls' ih =>
    rw [List.filter_cons]
    by_cases hp : p l
    · rw [if_pos hp, List.filterMap_cons, List.filterMap_cons, if_pos hp, ih]
    · rw [if_neg hp, List.filterMap_cons, if_neg hp, ih]

lemma filter_filterMap_right {α : Type} (f : List Char → Option α)
    (q : α → Bool) :
    ∀ ls : List (List Char), (ls.filterMap f).filter q =
      ls.filterMap (fun x =>
        (f x).bind (fun a => if q a then some a else none)) := by
  intro ls
  induction ls with
  | nil => rfl
  | cons l ls' ih =>
    rw [List.filterMap_cons, List.filterMap_cons]
    cases hf : f l with
    | none => simp only [Option.none_bind, ih]
    | some a =>
      rw [List.filter_cons]
      by_cases hq : q a
      · simp only [hq, if_true, ih, Option.some_bind]
      · have hq' : q a = false := by simpa using hq
        simp only [hq', Bool.false_eq_true, if_false, ih, Option.some_bind]

lemma joinNL_eq_nil {ls : List (List Char)} : joinNL ls = [] ↔ ls = [] := by
  cases ls with
  | nil => simp [joinNL]
  | cons l ls' => simp [joinNL_cons]

/-- C6.  As frozen, the claim is false: `GetUserRoles` selects bindings
with `grep -E '^g,<user>,'`, a byte-level test that misses rows the CSV
parser does accept, such as `g, alice, role:admin` (spaces after the
commas) — for such a document the code returns the default role even
though the subject has an explicit binding.  Amended claim, as proved
here: over documents whose lines are quote-free and written canonically
(each line a comment or exactly the comma-join of its trimmed fields),
and for user names that `grep -E` reads as literal text (trim-stable,
comma-free, and containing no `grepSpecial` character, so the shell
pattern `^g,<user>,` is a plain prefix test), the resolution is
correct: the parser's bindings for the subject are exactly the
grep-selected rows; when the subject has none of them the result is
the default role as a singleton (or nothing when the default is
empty), and otherwise it is exactly the list of the subject's bound
roles, without the default role added on top. -/
theorem C6_subject_roles_amended (ls : List (List Char))
    (defaultRole u : List Char)
    (hls : ∀ l ∈ ls, '"' ∉ l ∧ '\n' ∉ l ∧ '\r' ∉ l)
    (hcanon : ∀ l ∈ ls, l.head? = some '#' ∨
      ∀ f ∈ splitComma l, goTrimSpace f = f)
    (hu : goTrimSpace u = u) (huc : ',' ∉ u)
    (hmeta : ∀ c ∈ u, grepSpecial c = false) :
    (∃ ps, parseArgoCDPolicyCSV (joinNL ls) =
      .ok ((ls.filterMap bindOf), ps)) ∧
    (((ls.filterMap bindOf).filter (fun b => decide (b.subject = u))) = [] →
      getUserRoles (joinNL ls) defaultRole u =
        .ok (if defaultRole.isEmpty then [] else [defaultRole])) ∧
    (((ls.filterMap bindOf).filter (fun b => decide (b.subject = u))) ≠ [] →
      getUserRoles (joinNL ls) defaultRole u =
        .ok (((ls.filterMap bindOf).filter
          (fun b => decide (b.subject = u))).map (fun b => b.role))) := by
  have hread : csvReadAll (joinNL ls) = .ok (ls.filterMap lineRec) :=
    csvReadAll_joinNL ls hls
  have hparse : parseArgoCDPolicyCSV (joinNL ls) =
      .ok ((ls.filterMap bindOf),
        (ls.filterMap lineRec).filterMap rowPolicy) := by
    rw [parseArgoCDPolicyCSV, hread]
    exact congrArg Except.ok
      (by rw [collectPolicies_eq, List.filterMap_filterMap]; rfl)
  have hpoint : ∀ l ∈ ls,
      (if (gTok ++ [','] ++ u ++ [',']).isPrefixOf l then bindOf l
        else none) =
      ((bindOf l).bind
        (fun a => if decide (a.subject = u) then some a else none)) := by
    intro l hl
    by_cases hm : (gTok ++ [','] ++ u ++ [',']).isPrefixOf l
    · rcases bindOf_matched u l hu huc hm with ⟨b, hb, hbs⟩
      rw [if_pos hm, hb]
      simp [hbs]
    · rw [if_neg hm]
      cases hb : bindOf l with
      | none => rfl
      | some b =>
        by_cases hbs : b.subject = u
        · exact absurd (matched_of_bindOf u l (hcanon l hl) hb hbs) hm
        · simp [hbs]
  have hubs : ((ls.filterMap bindOf).filter (fun b => decide (b.subject = u)))
      = (ls.filter
          (fun l => (gTok ++ [','] ++ u ++ [',']).isPrefixOf l)).filterMap
            bindOf := by
    rw [filter_filterMap_right, filterMap_filter_left]
    exact (List.filterMap_congr hpoint).symm
  refine ⟨⟨_, hparse⟩, ?_, ?_⟩
  · intro hempty
    rw [hubs] at hempty
    rw [getUserRoles]
    simp only [goLines_joinNL ls (fun l hl => (hls l hl).2.1)]
    have hmnil : (ls.filter
        (fun l => (gTok ++ [','] ++ u ++ [',']).isPrefixOf l)) = [] := by
      by_contra hne
      cases hmt : ls.filter
          (fun l => (gTok ++ [','] ++ u ++ [',']).isPrefixOf l) with
      | nil => exact hne hmt
      | cons m ms =>
        have hm0 : m ∈ ls.filter
            (fun l => (gTok ++ [','] ++ u ++ [',']).isPrefixOf l) := by
          rw [hmt]; exact List.mem_cons_self _ _
        rcases List.mem_filter.mp hm0 with ⟨hmem, hpref⟩
        rcases bindOf_matched u m hu huc hpref with ⟨b, hb, -⟩
        have : b ∈ (ls.filter
            (fun l => (gTok ++ [','] ++ u ++ [',']).isPrefixOf l)).filterMap
              bindOf := List.mem_filterMap.mpr ⟨m, hm0, hb⟩
        rw [hempty] at this
        exact absurd this (List.not_mem_nil b)
    rw [hmnil]
    rfl
  · intro hne
    rw [hubs] at hne ⊢
    rw [getUserRoles]
    simp only [goLines_joinNL ls (fun l hl => (hls l hl).2.1)]
    cases hmt : ls.filter
        (fun l => (gTok ++ [','] ++ u ++ [',']).isPrefixOf l) with
    | nil => rw [hmt] at hne; exact absurd rfl hne
    | cons m ms =>
      have hsubset : ∀ l ∈ m :: ms, '"' ∉ l ∧ '\n' ∉ l ∧ '\r' ∉ l := by
        intro l hl
        exact hls l (List.mem_of_mem_filter (hmt ▸ hl))
      have hout : csvReadAll (joinNL (m :: ms)) =
          .ok ((m :: ms).filterMap lineRec) :=
        csvReadAll_joinNL (m :: ms) hsubset
      have houtne : joinNL (m :: ms) ≠ [] := by
        rw [joinNL_cons]; simp
      have hparse2 : parseArgoCDPolicyCSV (joinNL (m :: ms)) =
          .ok ((m :: ms).filterMap bindOf,
            ((m :: ms).filterMap lineRec).filterMap rowPolicy) := by
        rw [parseArgoCDPolicyCSV, hout]
        exact congrArg Except.ok
          (by rw [collectPolicies_eq, List.filterMap_filterMap]; rfl)
      simp only [show ((m :: ms).map (fun l => l ++ ['\n'])).flatten =
        joinNL (m :: ms) from rfl]
      rw [if_neg (by simpa [List.isEmpty_iff] using houtne), hparse2]

/-- Witness for C6 at a concrete input: a canonical document with a
comment, two bindings for `alice` and one for `bob`; resolving `alice`
returns exactly her two roles. -/
theorem C6_witness :
    (∃ ps, parseArgoCDPolicyCSV (joinNL [s2l "# note",
        s2l "g,alice,role:admin", s2l "g,bob,role:dev",
        s2l "g,alice,role:extra"]) =
      .ok (([s2l "# note", s2l "g,alice,role:admin", s2l "g,bob,role:dev",
        s2l "g,alice,role:extra"].filterMap bindOf), ps)) ∧
    ((([s2l "# note", s2l "g,alice,role:admin", s2l "g,bob,role:dev",
        s2l "g,alice,role:extra"].filterMap bindOf).filter
          (fun b => decide (b.subject = s2l "alice"))) = [] →
      getUserRoles (joinNL [s2l "# note", s2l "g,alice,role:admin",
        s2l "g,bob,role:dev", s2l "g,alice,role:extra"]) (s2l "readonly")
        (s2l "alice") =
        .ok (if (s2l "readonly").isEmpty then [] else [s2l "readonly"])) ∧
    ((([s2l "# note", s2l "g,alice,role:admin", s2l "g,bob,role:dev",
        s2l "g,alice,role:extra"].filterMap bindOf).filter
          (fun b => decide (b.subject = s2l "alice"))) ≠ [] →
      getUserRoles (joinNL [s2l "# note", s2l "g,alice,role:admin",
        s2l "g,bob,role:dev", s2l "g,alice,role:extra"]) (s2l "readonly")
        (s2l "alice") =
        .ok ((([s2l "# note", s2l "g,alice,role:admin", s2l "g,bob,role:dev",
          s2l "g,alice,role:extra"].filterMap bindOf).filter
            (fun b => decide (b.subject = s2l "alice"))).map
              (fun b => b.role))) :=
  C6_subject_roles_amended
    [s2l "# note", s2l "g,alice,role:admin", s2l "g,bob,role:dev",
      s2l "g,alice,role:extra"]
    (s2l "readonly") (s2l "alice")
    (by decide) (by decide) (by decide) (by decide) (by decide)

/-- Counterexample to C6 as frozen: in `g, alice, role:admin` (spaces
after the commas) the CSV parser sees an explicit binding of `alice`,
but the byte-level `grep` pattern `^g,alice,` does not match the line,
so `GetUserRoles` falls back to the default role instead of returning
the explicit one. -/
theorem C6_counterexample :
    getUserRoles (s2l "g, alice, role:admin\n") (s2l "readonly")
      (s2l "alice") = .ok [s2l "readonly"] ∧
    parseArgoCDPolicyCSV (s2l "g, alice, role:admin\n") =
      .ok ([⟨s2l "alice", s2l "admin"⟩], []) := by decide
